import Mathlib

/-!
Verification development for a BPMN-style workflow engine.

Each section embeds one backend component as executable Lean definitions,
translated from the corresponding Python source file, and proves the stated
properties about them:

* `MessageBus`      — backend/message_queue.py (`MessageQueue`)
* `EventFilter`     — backend/agui_event_filter.py
* `DurationParse`   — backend/workflow_engine.py (`parse_iso8601_duration`)
* `GatewayEval`     — backend/gateway_evaluator.py (`GatewayEvaluator`)
* `SentenceSeg`     — backend/sentence_detector.py (`SentenceDetector`)
* `Engine`          — backend/workflow_engine.py (traversal, boundary events,
                      event sub-processes, competing-path cancellation)

Python primitives that the sources call (the builtin `eval`, the builtin
`float`) are modelled as explicit function parameters, so every theorem
quantifies over their behaviour.  Python dictionaries keyed by strings are
modelled as association lists; `defaultdict(list)` lookups default to `[]`.
-/

namespace MessageBus

/-- One queued message, as built in `publish_message`
(the `timestamp` field is dropped: no code path reads it). -/
structure QueuedMessage where
  messageRef : String
  correlationKey : String
  payload : String
  deriving DecidableEq

/-- One waiting receive task.  The Python tuple is
`(task_id, future, timeout_handle)`; `done` models `future.done()`.
`filterRef` is the `message_ref` argument the waiter was registered with in
`wait_for_message`; note the Python tuple does NOT store it, so
`publish_message` has no access to it. -/
structure Waiter where
  taskId : String
  filterRef : String
  done : Bool
  deriving DecidableEq

/-- The fields `self.messages` and `self.waiting_tasks` of `MessageQueue`,
both `defaultdict`s keyed by correlation key. -/
structure BusState where
  messages : List (String × List QueuedMessage)
  waiting : List (String × List Waiter)
  deriving DecidableEq

/-- Lookup in a `defaultdict(list)`. -/
def lookupD : List (String × List α) → String → List α
  | [], _ => []
  | p :: rest, k => if p.1 = k then p.2 else lookupD rest k

/-- Store a value under a key (replacing the first binding, or appending). -/
def setKey : List (String × List α) → String → List α → List (String × List α)
  | [], k, v => [(k, v)]
  | p :: rest, k, v => if p.1 = k then (k, v) :: rest else p :: setKey rest k v

theorem lookupD_setKey_self (l : List (String × List α)) (k : String)
    (v : List α) : lookupD (setKey l k v) k = v := by
  induction l with
  | nil => simp [setKey, lookupD]
  | cons p rest ih =>
    by_cases h : p.1 = k
    · simp [setKey, lookupD, h]
    · simp [setKey, lookupD, h, ih]

theorem lookupD_setKey_other (l : List (String × List α)) (k k2 : String)
    (v : List α) (hne : k2 ≠ k) :
    lookupD (setKey l k v) k2 = lookupD l k2 := by
  induction l with
  | nil => simp [setKey, lookupD, Ne.symm hne]
  | cons p rest ih =>
    by_cases h : p.1 = k
    · simp [setKey, lookupD, h, Ne.symm hne]
    · by_cases h2 : p.1 = k2
      · simp [setKey, lookupD, h, h2, hne]
      · simp [setKey, lookupD, h, h2, ih]

/-- `MessageQueue.publish_message` (message_queue.py lines 28-73), the body
of the `async with self.lock` block.  Returns the new state, the boolean the
call returns, and the waiter the payload was delivered to (if any). -/
def publishMessage (st : BusState) (messageRef correlationKey payload : String) :
    BusState × Bool × Option Waiter :=
  let msg : QueuedMessage := ⟨messageRef, correlationKey, payload⟩
  match lookupD st.waiting correlationKey with
  | w :: rest =>
    -- a waiting task exists: pop the head waiter and cancel its timeout
    let waiting1 := setKey st.waiting correlationKey rest
    if w.done then
      -- future already done: fall through to queueing the message
      (⟨setKey st.messages correlationKey
          (lookupD st.messages correlationKey ++ [msg]), waiting1⟩, false, none)
    else
      -- deliver the message
      (⟨st.messages, waiting1⟩, true, some w)
  | [] =>
    -- no waiting task, queue the message
    (⟨setKey st.messages correlationKey
        (lookupD st.messages correlationKey ++ [msg]), st.waiting⟩, false, none)

/-- Result of the locked section of `wait_for_message`: either a message was
already queued and is consumed, or a waiter is registered. -/
inductive WaitSync where
  | immediate (msg : QueuedMessage) (st : BusState)
  | registered (st : BusState)
  deriving DecidableEq

/-- Python `msg['messageRef'] == message_ref or not message_ref`. -/
def msgMatches (msg : QueuedMessage) (messageRef : String) : Bool :=
  msg.messageRef == messageRef || messageRef == ""

/-- `MessageQueue.wait_for_message` (message_queue.py lines 97-136), the body
of the `async with self.lock` block before the caller suspends. -/
def waitForMessageSync (st : BusState) (taskId messageRef correlationKey : String) :
    WaitSync :=
  let q := lookupD st.messages correlationKey
  match q.findIdx? (fun m => msgMatches m messageRef) with
  | some i =>
    .immediate (q.getD i ⟨"", "", ""⟩)
      ⟨setKey st.messages correlationKey (q.eraseIdx i), st.waiting⟩
  | none =>
    .registered ⟨st.messages,
      setKey st.waiting correlationKey
        (lookupD st.waiting correlationKey ++ [⟨taskId, messageRef, false⟩])⟩

/-- The state after the locked section of `wait_for_message`. -/
def waitStateOf : WaitSync → BusState
  | .immediate _ st => st
  | .registered st => st

/-- The locked section of the `timeout_handler` closure in `wait_for_message`
(lines 117-131): remove the waiter with this task id and fail its future. -/
def timeoutRemove (st : BusState) (taskId correlationKey : String) : BusState :=
  ⟨st.messages,
    setKey st.waiting correlationKey
      ((lookupD st.waiting correlationKey).filter (fun w => w.taskId != taskId))⟩

/-- One completed bus operation: each constructor is one critical section
guarded by `self.lock`. -/
inductive BusStep : BusState → BusState → Prop
  | publish (st : BusState) (messageRef correlationKey payload : String) :
      BusStep st (publishMessage st messageRef correlationKey payload).1
  | wait (st : BusState) (taskId messageRef correlationKey : String) :
      BusStep st (waitStateOf (waitForMessageSync st taskId messageRef correlationKey))
  | timeout (st : BusState) (taskId correlationKey : String) :
      BusStep st (timeoutRemove st taskId correlationKey)

/-- States of the bus reachable from a fresh `MessageQueue()` through
completed bus operations. -/
inductive BusReachable : BusState → Prop
  | init : BusReachable ⟨[], []⟩
  | step {st st2 : BusState} : BusReachable st → BusStep st st2 → BusReachable st2

/-- A message with reference `messageRef` sits unconsumed in the queue under
`correlationKey`. -/
def hasQueued (st : BusState) (messageRef correlationKey : String) : Prop :=
  ∃ m ∈ lookupD st.messages correlationKey, m.messageRef = messageRef

/-- A waiter registered under `correlationKey` whose filter accepts
`messageRef` (its own reference, or the empty catch-all filter). -/
def hasWaiter (st : BusState) (messageRef correlationKey : String) : Prop :=
  ∃ w ∈ lookupD st.waiting correlationKey, w.filterRef = messageRef ∨ w.filterRef = ""

/-- Between bus operations every listed future is pending: `publish_message`
pops a waiter before resolving it and the timeout handler removes the waiter
in the same critical section that fails it. -/
def allPending (st : BusState) : Prop :=
  ∀ k : String, ∀ w ∈ lookupD st.waiting k, w.done = false

/-- For no key does the bus simultaneously hold a queued message and a
waiter whose filter accepts it. -/
def pairExclusive (st : BusState) : Prop :=
  ∀ messageRef correlationKey : String,
    ¬ (hasQueued st messageRef correlationKey ∧
       hasWaiter st messageRef correlationKey)

/-- The claim that `publish_message` delivers to a waiter only when the
published `messageRef` matches that waiter's registered filter. -/
def publishChecksFilter : Prop :=
  ∀ (st : BusState) (messageRef correlationKey payload : String) (w : Waiter),
    (publishMessage st messageRef correlationKey payload).2.2 = some w →
    w.filterRef = messageRef ∨ w.filterRef = ""

/-- C2 counterexample: with a pending waiter registered for correlation key
`k` with filter `m1`, publishing `(m2, k)` still delivers to that waiter:
`publish_message` never consults the filter (which the waiter tuple does not
even store). -/
theorem publish_ignores_filter_counterexample : ¬ publishChecksFilter := by
  intro hcl
  have h := hcl ⟨[], [("k", [⟨"t1", "m1", false⟩])]⟩ "m2" "k" "p"
    ⟨"t1", "m1", false⟩ (by rfl)
  simp at h

/-- C2 amended: `publish_message` keys waiters by correlation key alone.
With all futures pending: it returns `true` exactly when some waiter is
registered under the correlation key; the delivery target is the head waiter
of that list regardless of its filter (and that list loses its head); with
no waiter the message is appended to the queue for the key and the waiter
map is untouched. -/
theorem publishMessage_characterization (st : BusState)
    (messageRef correlationKey payload : String) (hp : allPending st) :
    ((publishMessage st messageRef correlationKey payload).2.1 = true ↔
       lookupD st.waiting correlationKey ≠ []) ∧
    ((publishMessage st messageRef correlationKey payload).2.2 =
       (lookupD st.waiting correlationKey).head?) ∧
    (lookupD st.waiting correlationKey ≠ [] →
       (publishMessage st messageRef correlationKey payload).1.messages =
         st.messages ∧
       lookupD (publishMessage st messageRef correlationKey payload).1.waiting
         correlationKey = (lookupD st.waiting correlationKey).tail) ∧
    (lookupD st.waiting correlationKey = [] →
       lookupD (publishMessage st messageRef correlationKey payload).1.messages
           correlationKey =
         lookupD st.messages correlationKey ++
           [⟨messageRef, correlationKey, payload⟩] ∧
       (publishMessage st messageRef correlationKey payload).1.waiting =
         st.waiting) := by
  cases hw : lookupD st.waiting correlationKey with
  | nil =>
    refine ⟨by simp [publishMessage, hw], by simp [publishMessage, hw], ?_, ?_⟩
    · intro hne; simp at hne
    · intro _
      exact ⟨by simp [publishMessage, hw, lookupD_setKey_self],
        by simp [publishMessage, hw]⟩
  | cons w rest =>
    have hdone : w.done = false := hp correlationKey w (by
      rw [hw]; exact List.mem_cons_self _ _)
    refine ⟨by simp [publishMessage, hw, hdone],
      by simp [publishMessage, hw, hdone], ?_, ?_⟩
    · intro _
      exact ⟨by simp [publishMessage, hw, hdone],
        by simp [publishMessage, hw, hdone, lookupD_setKey_self]⟩
    · intro hnil; simp at hnil

theorem lookupD_setKey_cases {l : List (String × List α)} {k k2 : String}
    {v : List α} {x : α} (hx : x ∈ lookupD (setKey l k v) k2) :
    (k2 = k ∧ x ∈ v) ∨ (x ∈ lookupD l k2) := by
  by_cases h : k2 = k
  · subst h; rw [lookupD_setKey_self] at hx; exact Or.inl ⟨rfl, hx⟩
  · rw [lookupD_setKey_other l k k2 v h] at hx; exact Or.inr hx

/-- One completed bus operation preserves the combined invariant:
all listed futures pending, and no key holding both a queued message and a
matching waiter. -/
theorem busStep_preserves {st st2 : BusState} (h : BusStep st st2)
    (hp : allPending st) (hx : pairExclusive st) :
    allPending st2 ∧ pairExclusive st2 := by
  cases h with
  | publish messageRef correlationKey payload =>
    cases hw : lookupD st.waiting correlationKey with
    | cons w rest =>
      have hdone : w.done = false := hp correlationKey w (by
        rw [hw]; exact List.mem_cons_self _ _)
      have hstep : (publishMessage st messageRef correlationKey payload).1 =
          ⟨st.messages, setKey st.waiting correlationKey rest⟩ := by
        simp [publishMessage, hw, hdone]
      rw [hstep]
      constructor
      · intro k2 w2 hmem
        rcases lookupD_setKey_cases hmem with ⟨hk, hv⟩ | hold
        · exact hp correlationKey w2 (by rw [hw]; exact List.mem_cons_of_mem _ hv)
        · exact hp k2 w2 hold
      · intro m2 k2 ⟨hq, hwk⟩
        rcases hwk with ⟨w2, hmem, hfil⟩
        rcases lookupD_setKey_cases hmem with ⟨hk, hv⟩ | hold
        · subst hk
          exact hx m2 k2 ⟨hq, w2,
            (by rw [hw]; exact List.mem_cons_of_mem _ hv), hfil⟩
        · exact hx m2 k2 ⟨hq, w2, hold, hfil⟩
    | nil =>
      have hstep : (publishMessage st messageRef correlationKey payload).1 =
          ⟨setKey st.messages correlationKey
            (lookupD st.messages correlationKey ++
              [⟨messageRef, correlationKey, payload⟩]), st.waiting⟩ := by
        simp [publishMessage, hw]
      rw [hstep]
      refine ⟨fun k2 w2 hmem => hp k2 w2 hmem, ?_⟩
      intro m2 k2 ⟨hq, hwk⟩
      rcases hq with ⟨m, hmem, href⟩
      rcases lookupD_setKey_cases hmem with ⟨hk, hv⟩ | hold
      · subst hk
        rcases List.mem_append.mp hv with hv1 | hv2
        · exact hx m2 k2 ⟨⟨m, hv1, href⟩, hwk⟩
        · rcases hwk with ⟨w2, hmem2, _⟩
          rw [hw] at hmem2
          exact absurd hmem2 (List.not_mem_nil w2)
      · exact hx m2 k2 ⟨⟨m, hold, href⟩, hwk⟩
  | wait taskId messageRef correlationKey =>
    cases hfind : (lookupD st.messages correlationKey).findIdx?
        (fun m => msgMatches m messageRef) with
    | some i =>
      have hstep : waitStateOf (waitForMessageSync st taskId messageRef
          correlationKey) = ⟨setKey st.messages correlationKey
            ((lookupD st.messages correlationKey).eraseIdx i), st.waiting⟩ := by
        simp [waitForMessageSync, hfind, waitStateOf]
      rw [hstep]
      refine ⟨fun k2 w2 hmem => hp k2 w2 hmem, ?_⟩
      intro m2 k2 ⟨hq, hwk⟩
      rcases hq with ⟨m, hmem, href⟩
      rcases lookupD_setKey_cases hmem with ⟨hk, hv⟩ | hold
      · subst hk
        exact hx m2 k2
          ⟨⟨m, List.eraseIdx_subset _ i hv, href⟩, hwk⟩
      · exact hx m2 k2 ⟨⟨m, hold, href⟩, hwk⟩
    | none =>
      have hnone : ∀ m ∈ lookupD st.messages correlationKey,
          msgMatches m messageRef = false := by
        intro m hm
        simpa using List.findIdx?_eq_none_iff.mp hfind m hm
      have hstep : waitStateOf (waitForMessageSync st taskId messageRef
          correlationKey) = ⟨st.messages,
            setKey st.waiting correlationKey
              (lookupD st.waiting correlationKey ++
                [⟨taskId, messageRef, false⟩])⟩ := by
        simp [waitForMessageSync, hfind, waitStateOf]
      rw [hstep]
      constructor
      · intro k2 w2 hmem
        rcases lookupD_setKey_cases hmem with ⟨hk, hv⟩ | hold
        · rcases List.mem_append.mp hv with hv1 | hv2
          · exact hp correlationKey w2 hv1
          · simp at hv2; rw [hv2]
        · exact hp k2 w2 hold
      · intro m2 k2 ⟨hq, hwk⟩
        rcases hwk with ⟨w2, hmem, hfil⟩
        rcases lookupD_setKey_cases hmem with ⟨hk, hv⟩ | hold
        · subst hk
          rcases List.mem_append.mp hv with hv1 | hv2
          · exact hx m2 k2 ⟨hq, w2, hv1, hfil⟩
          · simp at hv2
            rcases hq with ⟨m, hmem2, href⟩
            have := hnone m hmem2
            rcases hfil with hfil | hfil <;> rw [hv2] at hfil <;>
              simp [msgMatches, href, ← hfil] at this
        · exact hx m2 k2 ⟨hq, w2, hold, hfil⟩
  | timeout taskId correlationKey =>
    constructor
    · intro k2 w2 hmem
      rcases lookupD_setKey_cases hmem with ⟨hk, hv⟩ | hold
      · exact hp correlationKey w2 (List.mem_of_mem_filter hv)
      · exact hp k2 w2 hold
    · intro m2 k2 ⟨hq, hwk⟩
      rcases hwk with ⟨w2, hmem, hfil⟩
      rcases lookupD_setKey_cases hmem with ⟨hk, hv⟩ | hold
      · subst hk
        exact hx m2 k2
          ⟨hq, w2, List.mem_of_mem_filter hv, hfil⟩
      · exact hx m2 k2 ⟨hq, w2, hold, hfil⟩

/-- C3: at every instant between completed bus operations, no
(messageRef, correlationKey) key simultaneously has an unconsumed queued
message and a registered waiter whose filter accepts it. -/
theorem busReachable_pairExclusive {st : BusState} (h : BusReachable st) :
    pairExclusive st := by
  have hh : allPending st ∧ pairExclusive st := by
    induction h with
    | init =>
      constructor
      · intro k w hw; simp [lookupD] at hw
      · intro m k ⟨⟨q, hq, _⟩, _⟩; simp [lookupD] at hq
    | step hr hs ih => exact busStep_preserves hs ih.1 ih.2
  exact hh.2

/-- Witness for C3 at a concrete reachable state: after publishing one
message into the empty bus, the invariant instance for its key holds. -/
theorem busReachable_pairExclusive_witness :
    ¬ (hasQueued (publishMessage ⟨[], []⟩ "m" "k" "p").1 "m" "k" ∧
       hasWaiter (publishMessage ⟨[], []⟩ "m" "k" "p").1 "m" "k") :=
  busReachable_pairExclusive
    (BusReachable.step BusReachable.init
      (BusStep.publish ⟨[], []⟩ "m" "k" "p")) "m" "k"

/-- Witness for the C2 characterization at a concrete state with one
pending waiter. -/
theorem publishMessage_characterization_witness :
    (publishMessage ⟨[], [("k", [⟨"t1", "m1", false⟩])]⟩ "m2" "k" "p").2.1 =
      true :=
  (publishMessage_characterization ⟨[], [("k", [⟨"t1", "m1", false⟩])]⟩
      "m2" "k" "p" (by
        intro k w hw
        simp only [lookupD] at hw
        split at hw
        · have hw2 := List.mem_singleton.mp hw
          rw [hw2]
        · exact absurd hw (List.not_mem_nil w))).1.mpr (by simp [lookupD])

end MessageBus

namespace EventFilter

/-- `EVENT_CATEGORY_MAP` (agui_event_filter.py lines 12-49), verbatim.
Note `text.message.chunk` has no entry. -/
def EVENT_CATEGORY_MAP : List (String × String) :=
  [("text.message.start", "messaging"),
   ("text.message.content", "messaging"),
   ("text.message.end", "messaging"),
   ("task.tool.start", "tool"),
   ("task.tool.end", "tool"),
   ("agent.tool_use", "tool"),
   ("messages.snapshot", "state"),
   ("state.snapshot", "state"),
   ("state.delta", "state"),
   ("workflow.started", "lifecycle"),
   ("workflow.completed", "lifecycle"),
   ("element.activated", "lifecycle"),
   ("element.completed", "lifecycle"),
   ("task.progress", "lifecycle"),
   ("task.error", "lifecycle"),
   ("task.cancelled", "lifecycle"),
   ("task.cancellable", "lifecycle"),
   ("task.cancelling", "lifecycle"),
   ("task.cancel.failed", "lifecycle"),
   ("gateway.evaluating", "lifecycle"),
   ("gateway.path_taken", "lifecycle"),
   ("task.thinking", "special"),
   ("userTask.created", "special"),
   ("ping", "special"),
   ("pong", "special"),
   ("replay.request", "special"),
   ("clear.history", "special")]

/-- The `'custom'` sub-dict of a node's properties, as read by
`should_send_event`: it may carry an `aguiEventCategories` list. -/
structure CustomProps where
  aguiEventCategories : Option (List String)
  deriving DecidableEq

/-- The task-preferences dict registered for a node: `properties.get('custom', {})`. -/
structure TaskPreferences where
  custom : Option CustomProps
  deriving DecidableEq

/-- `EventFilter.default_categories`. -/
def defaultCategories : List String := ["messaging", "tool"]

/-- `EventFilter.should_send_event` (agui_event_filter.py lines 58-91). -/
def shouldSendEvent (eventType : String) (prefs : TaskPreferences) : Bool :=
  match EVENT_CATEGORY_MAP.find? (fun p => p.1 == eventType) with
  | none => true  -- unknown event type: send it by default
  | some p =>
    let customProps := prefs.custom.getD ⟨none⟩
    let configured := customProps.aguiEventCategories.getD defaultCategories
    let configured := if configured.isEmpty then defaultCategories else configured
    configured.contains p.2

/-- The C9 claim as stated: a node whose declared category list excludes
`messaging` has its `text.message.chunk` events dropped (because the spec
table places `text.message.chunk` in the messaging category). -/
def chunkDroppedWhenMessagingExcluded : Prop :=
  ∀ cats : List String, "messaging" ∉ cats → cats ≠ [] →
    shouldSendEvent "text.message.chunk" ⟨some ⟨some cats⟩⟩ = false

/-- C9 counterexample: with declared categories `["lifecycle"]` (which
exclude messaging) a `text.message.chunk` event is still sent, because
`EVENT_CATEGORY_MAP` has no entry for `text.message.chunk` and unmapped
event types are always sent. -/
theorem chunk_not_dropped_counterexample :
    ¬ chunkDroppedWhenMessagingExcluded := by
  intro h
  exact absurd (h ["lifecycle"] (by decide) (by decide)) (by decide)

/-- C9 amended: `text.message.chunk` is absent from `EVENT_CATEGORY_MAP`,
so it is always sent regardless of preferences; mapped messaging events such
as `text.message.start` are dropped when the declared categories exclude
`messaging`; and any event type absent from the map is always sent. -/
theorem shouldSendEvent_characterization :
    (∀ prefs : TaskPreferences,
      shouldSendEvent "text.message.chunk" prefs = true) ∧
    (∀ cats : List String, "messaging" ∉ cats → cats ≠ [] →
      shouldSendEvent "text.message.start" ⟨some ⟨some cats⟩⟩ = false) ∧
    (∀ (t : String) (prefs : TaskPreferences),
      EVENT_CATEGORY_MAP.find? (fun p => p.1 == t) = none →
      shouldSendEvent t prefs = true) := by
  refine ⟨fun prefs => rfl, ?_, ?_⟩
  · intro cats hnm hne
    show (if cats.isEmpty then defaultCategories else cats).contains
      "messaging" = false
    cases cats with
    | nil => exact absurd rfl hne
    | cons c cs =>
      rw [if_neg (by simp [List.isEmpty])]
      simpa using hnm
  · intro t prefs hfind
    rw [shouldSendEvent, hfind]

/-- Witness for the C9 amended theorem at concrete inputs. -/
theorem shouldSendEvent_characterization_witness :
    shouldSendEvent "text.message.chunk" ⟨some ⟨some ["lifecycle"]⟩⟩ = true ∧
    shouldSendEvent "text.message.start" ⟨some ⟨some ["lifecycle"]⟩⟩ = false ∧
    shouldSendEvent "my.unknown.event" ⟨none⟩ = true :=
  ⟨shouldSendEvent_characterization.1 ⟨some ⟨some ["lifecycle"]⟩⟩,
   shouldSendEvent_characterization.2.1 ["lifecycle"] (by decide) (by decide),
   shouldSendEvent_characterization.2.2 "my.unknown.event" ⟨none⟩ (by decide)⟩

end EventFilter

/-- Python strings are modelled as character lists, and the string
primitives the sources use are defined here directly, so that every
definition evaluates by kernel reduction. -/
abbrev Str := List Char

namespace PyStr

/-- Python `c in s` for a single character. -/
def containsChar (s : Str) (c : Char) : Bool :=
  s.any (fun x => x = c)

/-- Python `s.split(c)` for a one-character separator. -/
def splitOnChar (c : Char) : Str → List Str
  | [] => [[]]
  | x :: rest =>
    if x = c then [] :: splitOnChar c rest
    else
      match splitOnChar c rest with
      | h :: t => (x :: h) :: t
      | [] => [[x]]

/-- Python `s.replace(c, '')`: remove every occurrence of the character. -/
def removeChar (c : Char) (s : Str) : Str :=
  s.filter (fun x => x != c)

end PyStr

namespace PyStr

/-- Python whitespace, as used by `str.strip` and `str.split`. -/
def isPyWs (c : Char) : Bool :=
  c = ' ' || c = '\t' || c = '\n' || c = '\r' || c = '\x0b' || c = '\x0c'

/-- Python `s.lstrip()`. -/
def pyLStrip (s : Str) : Str := s.dropWhile isPyWs

/-- Python `s.rstrip()`. -/
def pyRStrip (s : Str) : Str := (s.reverse.dropWhile isPyWs).reverse

/-- Python `s.strip()`. -/
def pyStrip (s : Str) : Str := pyRStrip (pyLStrip s)

/-- Python `s.lower()` (the sources only lower-case ASCII text). -/
def pyLower (s : Str) : Str := s.map Char.toLower

end PyStr

namespace DurationParse

open PyStr

/-- The running total of `parse_iso8601_duration` (workflow_engine.py lines
1160-1197), applied to the string after the leading `P` has been removed.
`pyFloat` models the Python builtin `float(str)`; `none` models a raised
`ValueError`, which propagates out of the function. -/
def iso8601TotalSeconds (pyFloat : Str → Option ℚ) (s : Str) : Option ℚ :=
  if containsChar s 'T' then
    let parts := splitOnChar 'T' s
    let datePart := parts.getD 0 []
    let timePart := parts.getD 1 []
    (if containsChar datePart 'D' then
        (pyFloat (removeChar 'D' datePart)).map (fun d => d * 24 * 3600)
      else some 0).bind (fun afterDays =>
    (if containsChar timePart 'H' then
        (pyFloat ((splitOnChar 'H' timePart).getD 0 [])).map (fun h => h * 3600)
      else some 0).bind (fun hoursSecs =>
    let timePart2 := if containsChar timePart 'H' then
      (splitOnChar 'H' timePart).getD 1 [] else timePart
    (if containsChar timePart2 'M' then
        (pyFloat ((splitOnChar 'M' timePart2).getD 0 [])).map (fun m => m * 60)
      else some 0).bind (fun minsSecs =>
    let timePart3 := if containsChar timePart2 'M' then
      (splitOnChar 'M' timePart2).getD 1 [] else timePart2
    (if containsChar timePart3 'S' ∧ removeChar 'S' timePart3 ≠ [] then
        pyFloat (removeChar 'S' timePart3)
      else some 0).map (fun secs =>
    afterDays + hoursSecs + minsSecs + secs))))
  else
    if containsChar s 'D' then
      (pyFloat (removeChar 'D' s)).map (fun d => d * 24 * 3600)
    else some 0

/-- `WorkflowEngine.parse_iso8601_duration` (workflow_engine.py lines
1150-1200).  `none` models the function raising. -/
def parseIso8601Duration (pyFloat : Str → Option ℚ) (durationStr : Str) :
    Option ℚ :=
  if ¬ durationStr.take 1 = ['P'] then some 30
  else
    (iso8601TotalSeconds pyFloat (durationStr.drop 1)).map
      (fun total => if 0 < total then total else 30)

/-- C10: whenever `parse_iso8601_duration` returns, the result is strictly
positive; any input not starting with `P` yields exactly 30.0, and so does
any input whose parsed components total zero seconds. -/
theorem parseIso8601Duration_positive (pyFloat : Str → Option ℚ)
    (s : Str) :
    (∀ r : ℚ, parseIso8601Duration pyFloat s = some r → 0 < r) ∧
    (¬ s.take 1 = ['P'] → parseIso8601Duration pyFloat s = some 30) ∧
    (s.take 1 = ['P'] → iso8601TotalSeconds pyFloat (s.drop 1) = some 0 →
      parseIso8601Duration pyFloat s = some 30) := by
  by_cases hp : s.take 1 = ['P']
  · refine ⟨?_, fun hnp => absurd hp hnp, ?_⟩
    · intro r hr
      rw [parseIso8601Duration, if_neg (by simpa using hp)] at hr
      cases ht : iso8601TotalSeconds pyFloat (s.drop 1) with
      | none => rw [ht] at hr; simp at hr
      | some t =>
        rw [ht] at hr
        simp only [Option.map_some'] at hr
        by_cases h0 : 0 < t
        · rw [if_pos h0] at hr
          rw [← Option.some_inj.mp hr]
          exact h0
        · rw [if_neg h0] at hr
          rw [← Option.some_inj.mp hr]
          norm_num
    · intro _ h0
      rw [parseIso8601Duration, if_neg (by simpa using hp), h0]
      simp
  · refine ⟨?_, fun _ => by rw [parseIso8601Duration, if_pos hp],
      fun hps => absurd hps hp⟩
    intro r hr
    rw [parseIso8601Duration, if_pos hp] at hr
    rw [← Option.some_inj.mp hr]
    norm_num

/-- Witness for C10: under a `float` model returning 0, the string `X` (no
leading `P`) and the zero-component duration `P` both return 30, and the
returned value is positive. -/
theorem parseIso8601Duration_positive_witness :
    parseIso8601Duration (fun _ => some 0) ['X'] = some 30 ∧
    (0 : ℚ) < 30 ∧
    parseIso8601Duration (fun _ => some 0) ['P'] = some 30 := by
  have hX := (parseIso8601Duration_positive (fun _ => some 0) ['X']).2.1
    (by decide)
  refine ⟨hX, (parseIso8601Duration_positive (fun _ => some 0) ['X']).1 30 hX,
    (parseIso8601Duration_positive (fun _ => some 0) ['P']).2.2
      (by decide) ?_⟩
  rw [show (['P'] : Str).drop 1 = [] from rfl]
  rfl

end DurationParse

namespace Graph

/-- The property bag of an element or connection (`properties: Dict[str, Any]`
in models.py), restricted to the keys the embedded code reads.  An absent key
is `none`; code sites apply the same defaults as the Python `.get` calls. -/
structure Props where
  condition : Option Str := none
  errorCode : Option Str := none
  cancelActivity : Option Bool := none
  isInterrupting : Option Bool := none
  isMultiInstance : Bool := false
  loopCondition : Option Str := none
  deriving DecidableEq

/-- `Connection` (models.py): a directed flow edge. -/
structure Connection where
  id : Str
  fromId : Str
  toId : Str
  name : Str
  properties : Props := {}
  deriving DecidableEq

/-- `Element` (models.py): one BPMN node; `childElements`/`childConnections`
carry the body of inline and event sub-processes. -/
inductive Element where
  | mk (id : Str) (type : Str) (name : Str) (attachedToRef : Option Str)
      (properties : Props) (childElements : Option (List Element))
      (childConnections : Option (List Connection))

def Element.id : Element → Str
  | .mk i _ _ _ _ _ _ => i

def Element.type : Element → Str
  | .mk _ t _ _ _ _ _ => t

def Element.name : Element → Str
  | .mk _ _ n _ _ _ _ => n

def Element.attachedToRef : Element → Option Str
  | .mk _ _ _ a _ _ _ => a

def Element.properties : Element → Props
  | .mk _ _ _ _ p _ _ => p

def Element.childElements : Element → Option (List Element)
  | .mk _ _ _ _ _ ce _ => ce

def Element.childConnections : Element → Option (List Connection)
  | .mk _ _ _ _ _ _ cc => cc

/-- `Element.is_task` (models.py lines 86-100). -/
def Element.isTask (e : Element) : Bool :=
  ["task", "userTask", "serviceTask", "scriptTask", "sendTask",
   "receiveTask", "manualTask", "businessRuleTask", "agenticTask",
   "subProcess", "callActivity"].any (fun t => t.data = e.type)

/-- `Element.is_gateway` (models.py lines 102-108). -/
def Element.isGateway (e : Element) : Bool :=
  ["exclusiveGateway", "parallelGateway", "inclusiveGateway"].any
    (fun t => t.data = e.type)

/-- `Element.is_event` (models.py lines 110-116). -/
def Element.isEvent (e : Element) : Bool :=
  ["startEvent", "endEvent", "intermediateEvent"].any
    (fun t => t.data = e.type)

/-- `Workflow` (models.py): the `process` wrapper is flattened to the two
fields the embedded code reads. -/
structure Workflow where
  elements : List Element
  connections : List Connection

/-- `Workflow.get_element_by_id`. -/
def Workflow.getElementById (wf : Workflow) (elementId : Str) :
    Option Element :=
  wf.elements.find? (fun e => e.id = elementId)

/-- `Workflow.get_start_event`. -/
def Workflow.getStartEvent (wf : Workflow) : Option Element :=
  wf.elements.find? (fun e => e.type = "startEvent".data)

/-- `Workflow.get_outgoing_connections`: authoring order is the order of the
connection list. -/
def Workflow.getOutgoingConnections (wf : Workflow) (e : Element) :
    List Connection :=
  wf.connections.filter (fun c => c.fromId = e.id)

/-- `Workflow.get_incoming_connections`. -/
def Workflow.getIncomingConnections (wf : Workflow) (e : Element) :
    List Connection :=
  wf.connections.filter (fun c => c.toId = e.id)

/-- `Workflow.get_outgoing_elements` (drops targets that do not resolve). -/
def Workflow.getOutgoingElements (wf : Workflow) (e : Element) :
    List Element :=
  (wf.getOutgoingConnections e).filterMap (fun c => wf.getElementById c.toId)

end Graph

namespace GatewayEval

open PyStr Graph

/-- A Python value stored in the variable context, as far as
`resolve_variables` inspects it: its `str()` rendering and whether it is a
string (strings are quoted when substituted). -/
structure PyValue where
  render : Str
  isStr : Bool
  deriving DecidableEq

/-- The variable context (`context: Dict[str, Any]`). -/
abbrev Ctx := List (Str × PyValue)

/-- The `replacer` closure of `resolve_variables`: look the stripped name up
(default `''`, a string) and render it, quoting strings. -/
def replacerOutput (grp : Str) (ctx : Ctx) : Str :=
  let value := match ctx.find? (fun p => p.1 = pyStrip grp) with
    | some p => p.2
    | none => ⟨[], true⟩
  if value.isStr then '"' :: value.render ++ ['"'] else value.render

/-- Split at the first closing brace: the regex group `[^\x7d]+` and the
remainder after the brace. -/
def takeGroup : Str → Option (Str × Str)
  | [] => none
  | c :: rest =>
    if c = '}' then some ([], rest)
    else (takeGroup rest).map (fun p => (c :: p.1, p.2))

/-- `re.sub` of the placeholder pattern in `resolve_variables`:
each `$\x7b name \x7d` occurrence with a nonempty group is replaced.
Structural recursion on a fuel argument; every replaced occurrence consumes
at least three characters of the input, so fuel equal to the input length
(as supplied by `substPlaceholders`) never runs out. -/
def substPlaceholdersFuel (ctx : Ctx) : Nat → Str → Str
  | _, [] => []
  | 0, s => s
  | fuel + 1, '$' :: '{' :: rest =>
    match takeGroup rest with
    | some (grp, rest2) =>
      if grp = [] then '$' :: '{' :: '}' :: substPlaceholdersFuel ctx fuel rest2
      else replacerOutput grp ctx ++ substPlaceholdersFuel ctx fuel rest2
    | none => '$' :: '{' :: rest
  | fuel + 1, c :: rest => c :: substPlaceholdersFuel ctx fuel rest

def substPlaceholders (ctx : Ctx) (s : Str) : Str :=
  substPlaceholdersFuel ctx s.length s

/-- `GatewayEvaluator.resolve_variables` (gateway_evaluator.py lines
145-164). -/
def resolveVariables (expression : Str) (ctx : Ctx) : Str :=
  let resolved := substPlaceholders ctx expression
  if resolved = expression ∧ (ctx.find? (fun p => p.1 = expression)).isSome
  then
    match ctx.find? (fun p => p.1 = expression) with
    | some p => p.2.render
    | none => resolved
  else resolved

/-- `GatewayEvaluator.evaluate_condition` (gateway_evaluator.py lines
123-143).  `pyEval` models the Python builtin `eval` with builtins removed
and the context as local scope; `none` models a raised exception, which the
code turns into the string fallback. -/
def evaluateCondition (pyEval : Str → Ctx → Option Bool) (condition : Str)
    (ctx : Ctx) : Bool :=
  let resolved := resolveVariables condition ctx
  match pyEval resolved ctx with
  | some b => b
  | none =>
    ["true", "yes", "1", "approved"].any
      (fun t => t.data = pyStrip (pyLower resolved))

/-- The flow condition: `flow.properties.get('condition', '')`. -/
def flowCondition (c : Connection) : Str :=
  c.properties.condition.getD []

/-- The `for flow in outgoing_flows` loop of
`GatewayEvaluator.evaluate_exclusive_gateway` (lines 46-67): take the first
flow whose condition is empty, or whose condition evaluates truthy, in
authoring order; `none` models the final `raise`. -/
def exclusiveLoop (pyEval : Str → Ctx → Option Bool) (wf : Workflow)
    (ctx : Ctx) : List Connection → Option (List (Option Element))
  | [] => none
  | flow :: rest =>
    if flowCondition flow = [] then some [wf.getElementById flow.toId]
    else if evaluateCondition pyEval (flowCondition flow) ctx then
      some [wf.getElementById flow.toId]
    else exclusiveLoop pyEval wf ctx rest

/-- `GatewayEvaluator.evaluate_exclusive_gateway` (lines 33-67), with
`agui_server = None` so no UI notifications occur. -/
def evaluateExclusiveGateway (pyEval : Str → Ctx → Option Bool)
    (wf : Workflow) (gateway : Element) (ctx : Ctx) :
    Option (List (Option Element)) :=
  exclusiveLoop pyEval wf ctx (wf.getOutgoingConnections gateway)

/-- Modelled from the spec wording of C1, for comparison with the code:
fire the first flow whose condition evaluates truthy; if none, fire the
(first) flow whose condition is empty; if neither exists, fail. -/
def specExclusiveGateway (pyEval : Str → Ctx → Option Bool) (wf : Workflow)
    (gateway : Element) (ctx : Ctx) : Option (List (Option Element)) :=
  let flows := wf.getOutgoingConnections gateway
  match flows.find? (fun f => flowCondition f ≠ [] &&
      evaluateCondition pyEval (flowCondition f) ctx) with
  | some f => some [wf.getElementById f.toId]
  | none =>
    match flows.find? (fun f => flowCondition f = []) with
    | some f => some [wf.getElementById f.toId]
    | none => none

/-- The C1 claim as stated: the code agrees with the spec-side evaluator on
every gateway and every variable scope. -/
def exclusiveMatchesSpec : Prop :=
  ∀ (pyEval : Str → Ctx → Option Bool) (wf : Workflow) (gateway : Element)
    (ctx : Ctx),
    evaluateExclusiveGateway pyEval wf gateway ctx =
      specExclusiveGateway pyEval wf gateway ctx

/-- A gateway whose first outgoing flow (in authoring order) is the default
and whose second carries the condition `x`. -/
def gwElem : Element := .mk "g".data "exclusiveGateway".data "Gate".data
  none {} none none

def elemA : Element := .mk "A".data "task".data "TaskA".data none {} none none

def elemB : Element := .mk "B".data "task".data "TaskB".data none {} none none

def flowDefault : Connection :=
  ⟨"c1".data, "g".data, "B".data, [], {}⟩

def flowCond : Connection :=
  ⟨"c2".data, "g".data, "A".data, [], { condition := some "x".data }⟩

def wfC1 : Workflow := ⟨[gwElem, elemA, elemB], [flowDefault, flowCond]⟩

/-- An `eval` model under which the condition `x` is truthy. -/
def pyEvalX : Str → Ctx → Option Bool :=
  fun s _ => if s = "x".data then some true else none

/-- C1 counterexample: with the default (empty-condition) flow authored
before a truthy conditional flow, the code fires the default, while the
claim says the default fires only if no condition evaluates truthy. -/
theorem exclusive_default_first_counterexample : ¬ exclusiveMatchesSpec := by
  intro h
  have h0 := h pyEvalX wfC1 gwElem []
  have h1 : evaluateExclusiveGateway pyEvalX wfC1 gwElem [] =
      some [some elemB] := by rfl
  have h2 : specExclusiveGateway pyEvalX wfC1 gwElem [] =
      some [some elemA] := by rfl
  rw [h1, h2] at h0
  have h3 : elemB.id = elemA.id := by
    have := congrArg (fun o : Option (List (Option Element)) =>
      o.map (List.map (Option.map Element.id))) h0
    simpa using this
  exact absurd h3 (by decide)

/-- C1 amended: the evaluator iterates outgoing flows in authoring order and
fires the first flow whose condition is empty OR evaluates truthy (so an
empty-condition default that precedes a truthy conditional flow wins); if no
flow fires, the gateway evaluation fails. -/
theorem evaluateExclusiveGateway_characterization
    (pyEval : Str → Ctx → Option Bool) (wf : Workflow) (gateway : Element)
    (ctx : Ctx) :
    evaluateExclusiveGateway pyEval wf gateway ctx =
      match (wf.getOutgoingConnections gateway).find? (fun f =>
          (flowCondition f).isEmpty ||
            evaluateCondition pyEval (flowCondition f) ctx) with
      | some f => some [wf.getElementById f.toId]
      | none => none := by
  have hgen : ∀ flows : List Connection,
      exclusiveLoop pyEval wf ctx flows =
        match flows.find? (fun f => (flowCondition f).isEmpty ||
            evaluateCondition pyEval (flowCondition f) ctx) with
        | some f => some [wf.getElementById f.toId]
        | none => none := by
    intro flows
    induction flows with
    | nil => rfl
    | cons flow rest ih =>
      by_cases hc : flowCondition flow = []
      · simp [exclusiveLoop, hc, List.find?]
      · have hie : (flowCondition flow).isEmpty = false := by
          simp [List.isEmpty_iff, hc]
        by_cases he : evaluateCondition pyEval (flowCondition flow) ctx
        · simp [exclusiveLoop, hc, he, List.find?, hie]
        · rw [exclusiveLoop, if_neg hc, if_neg (by simpa using he), ih]
          have hp : ((flowCondition flow).isEmpty ||
              evaluateCondition pyEval (flowCondition flow) ctx) = false := by
            simp [he, hie]
          simp [List.find?, hp]
  exact hgen (wf.getOutgoingConnections gateway)

end GatewayEval

namespace SentenceSeg

open PyStr

/-- The characters of the regex class `[.!?]`. -/
def isPunct (c : Char) : Bool := c = '.' || c = '!' || c = '?'

/-- The characters of the regex class `[ \t]`. -/
def isSpaceTab (c : Char) : Bool := c = ' ' || c = '\t'

/-- The regex class `[A-Z]` (ASCII). -/
def isUpperAZ (c : Char) : Bool := 'A' ≤ c && c ≤ 'Z'

/-- The regex class `[a-z]` (ASCII). -/
def isLowerAZ (c : Char) : Bool := 'a' ≤ c && c ≤ 'z'

/-- The regex class `\d` (ASCII). -/
def isDigitC (c : Char) : Bool := '0' ≤ c && c ≤ '9'

/-- The regex class `\w` (ASCII input). -/
def isWordChar (c : Char) : Bool :=
  isLowerAZ c || isUpperAZ c || isDigitC c || c = '_'

/-- Length of the maximal prefix satisfying `p` (a greedy `+`/`*` run). -/
def countWhile (p : Char → Bool) : Str → Nat
  | [] => 0
  | c :: rest => if p c then countWhile p rest + 1 else 0

/-- Match of the pattern `([.!?]+)[ \t]+([A-Z])` anchored at the head of the
string, returning the length of group 1 and the total match length.  The
greedy runs are maximal: backtracking cannot succeed with shorter runs
because a punctuation character is not whitespace and a whitespace character
is not an upper-case letter. -/
def matchAt (s : Str) : Option (Nat × Nat) :=
  let p := countWhile isPunct s
  if p = 0 then none
  else
    let w := countWhile isSpaceTab (s.drop p)
    if w = 0 then none
    else
      match (s.drop (p + w)).head? with
      | some c => if isUpperAZ c then some (p, p + w + 1) else none
      | none => none

/-- `re.search(r'([.!?]+)[ \t]+([A-Z])', s)`: the leftmost match as
`(match.start, len(group 1), match.end)`. -/
def findBoundary : Str → Option (Nat × Nat × Nat)
  | [] => none
  | c :: rest =>
    match matchAt (c :: rest) with
    | some (p, len) => some (0, p, len)
    | none => (findBoundary rest).map (fun r => (r.1 + 1, r.2.1, r.2.2 + 1))

/-- Python `text.split()` (split on whitespace runs, no empty items), via a
fuel argument equal to the string length, which the recursion never
exhausts. -/
def splitWsFuel : Nat → Str → List Str
  | _, [] => []
  | 0, _ => []
  | fuel + 1, c :: rest =>
    if isPyWs c then splitWsFuel fuel rest
    else ((c :: rest).takeWhile (fun x => !isPyWs x)) ::
      splitWsFuel fuel (rest.dropWhile (fun x => !isPyWs x))

def splitWs (s : Str) : List Str := splitWsFuel s.length s

/-- Python `s.rstrip('.!?')`. -/
def rstripPunct (s : Str) : Str := (s.reverse.dropWhile isPunct).reverse

/-- Python `s.rstrip('.')`. -/
def rstripDot (s : Str) : Str := (s.reverse.dropWhile (fun c => c = '.')).reverse

/-- `SentenceDetector.abbreviations` (sentence_detector.py lines 29-36). -/
def abbreviations : List Str :=
  ["mr", "mrs", "ms", "dr", "prof", "sr", "jr",
   "inc", "ltd", "corp", "co",
   "etc", "vs", "e.g", "i.e", "p.s",
   "st", "ave", "blvd", "rd",
   "jan", "feb", "mar", "apr", "may", "jun", "jul", "aug", "sep", "oct",
   "nov", "dec",
   "u.s", "u.k", "u.s.a", "ph.d", "m.d", "b.a", "m.a", "a.m", "p.m"
  ].map String.data

/-- `re.search(r'\b[A-Z]\.$', text)`: the only candidate position is the
final two characters, and the word boundary requires the preceding
character (if any) to be a non-word character. -/
def endsWithCapDot (text : Str) : Bool :=
  match text.reverse with
  | '.' :: c :: rest =>
    isUpperAZ c &&
      (match rest with
       | [] => true
       | d :: _ => !isWordChar d)
  | _ => false

/-- `re.search(r':\s*[.!?]*$', text)`: some colon is followed only by
whitespace and then only by sentence punctuation; it suffices to test the
suffix after the last colon. -/
def colonNearEnd (text : Str) : Bool :=
  if text.any (fun c => c = ':') then
    ((text.reverse.takeWhile (fun c => c != ':')).reverse.dropWhile
      isPyWs).all isPunct
  else false

/-- `re.search(r':\s+\d+\.', text)`: a colon followed by at least one
whitespace character, at least one digit, and a dot.  The greedy runs must
be maximal for the same backtracking reason as in `matchAt`. -/
def colonNumberedList : Str → Bool
  | [] => false
  | c :: rest =>
    (if c = ':' then
      let w := countWhile isPyWs rest
      let d := countWhile isDigitC (rest.drop w)
      1 ≤ w && 1 ≤ d && (rest.drop (w + d)).head? = some '.'
    else false) || colonNumberedList rest

/-- `SentenceDetector._is_false_positive` (sentence_detector.py lines
106-166). -/
def isFalsePositive (text : Str) : Bool :=
  let words := splitWs text
  match words.getLast? with
  | none => true
  | some lastRaw =>
    let lastWord := rstripPunct (pyLower lastRaw)
    if abbreviations.contains lastWord then true
    else if (match lastWord with | [c] => isLowerAZ c | _ => false) then true
    else if !lastWord.isEmpty && lastWord.all isDigitC then true
    else if words.length = 2 &&
        (!(rstripDot (words.getD 0 [])).isEmpty &&
          (rstripDot (words.getD 0 [])).all isDigitC) &&
        (match lastWord with | [c] => isLowerAZ c | _ => false) then true
    else if (match lastWord.getLast? with
             | some c => isDigitC c
             | none => false) then true
    else
      let hasStrong := text.any (fun c => c = '!' || c = '?')
      if !hasStrong && (pyStrip text).length < 10 && words.length < 2 then
        true
      else if endsWithCapDot text then true
      else if colonNearEnd text then true
      else if colonNumberedList text then true
      else false

/-- The `while True` loop of `SentenceDetector.add_chunk` (lines 55-91).
Fuel-bounded structural recursion: every false positive strictly advances
`search_pos` (each match spans at least three characters, so
`actual_end - 1 > search_pos`) and every emitted sentence strictly shortens
the buffer, so `(n+2)^2` iterations always suffice for a buffer of length
`n`, and the fuel supplied by `addChunk` never runs out. -/
def addChunkLoop : Nat → Str → Nat → List Str × Str
  | 0, buffer, _ => ([], buffer)
  | fuel + 1, buffer, searchPos =>
    match findBoundary (buffer.drop searchPos) with
    | none => ([], buffer)
    | some (mstart, punctLen, mEnd) =>
      let actualStart := searchPos + mstart
      let actualEnd := searchPos + mEnd
      let sentenceEndPos := actualStart + punctLen
      let potential := pyStrip (buffer.take sentenceEndPos)
      if isFalsePositive potential then
        addChunkLoop fuel buffer (actualEnd - 1)
      else
        let rest := pyLStrip (buffer.drop sentenceEndPos)
        let r := addChunkLoop fuel rest 0
        (potential :: r.1, r.2)

/-- `SentenceDetector.add_chunk` (lines 38-91): append the chunk to the
buffer, then run the boundary loop.  Returns the emitted sentences and the
new buffer. -/
def addChunk (buffer chunk : Str) : List Str × Str :=
  addChunkLoop (((buffer ++ chunk).length + 2) * ((buffer ++ chunk).length + 2))
    (buffer ++ chunk) 0

/-- `SentenceDetector.flush` (lines 93-104). -/
def flush (buffer : Str) : Str := pyStrip buffer

/-- Feed a list of chunks through `add_chunk` calls on one detector,
collecting all emitted sentences and the final buffer. -/
def runChunks : Str → List Str → List Str × Str
  | buffer, [] => ([], buffer)
  | buffer, chunk :: rest =>
    let r := addChunk buffer chunk
    let r2 := runChunks r.2 rest
    (r.1 ++ r2.1, r2.2)

end SentenceSeg

namespace SentenceSeg

open PyStr

/-- The C8 input, fed one character at a time. -/
def mrSmithChunks : List Str :=
  "Mr. Smith went. The store was open.".data.map (fun c => [c])

/-- C8: feeding the text one character at a time emits exactly
`Mr. Smith went.` during streaming and `The store was open.` at flush,
with no split after `Mr.`. -/
theorem segmenter_mr_smith_char_by_char :
    (runChunks [] mrSmithChunks).1 ++ [flush (runChunks [] mrSmithChunks).2] =
      ["Mr. Smith went.".data, "The store was open.".data] := by decide

/-- The C4 claim as stated: concatenating all emitted sentences plus the
final flush equals the concatenated input with its trailing whitespace
trimmed. -/
def segmenterConcatExact : Prop :=
  ∀ chunks : List Str,
    ((runChunks [] chunks).1 ++ [flush (runChunks [] chunks).2]).flatten =
      pyRStrip chunks.flatten

/-- C4 counterexample: on the single chunk `Hi there. Bye now.` the detector
emits `Hi there.` and flushes `Bye now.`; their concatenation drops the
space between the sentences, so it differs from the trailing-trimmed
input. -/
theorem segmenter_concat_counterexample : ¬ segmenterConcatExact := by
  intro h
  exact absurd (h ["Hi there. Bye now.".data]) (by decide)

/-- `Interleave ss buf input`: the input consists of the sentences `ss`, in
order, separated (and preceded) by whitespace-only runs, followed by the
remainder `buf`. -/
inductive Interleave : List Str → Str → Str → Prop
  | nil (ws buf : Str) : (∀ c ∈ ws, isPyWs c = true) →
      Interleave [] buf (ws ++ buf)
  | cons (ws s : Str) (ss : List Str) (mid buf : Str) :
      (∀ c ∈ ws, isPyWs c = true) → Interleave ss buf mid →
      Interleave (s :: ss) buf (ws ++ s ++ mid)

theorem lstrip_decomp (s : Str) : s = s.takeWhile isPyWs ++ pyLStrip s :=
  (List.takeWhile_append_dropWhile isPyWs s).symm

theorem rstrip_decomp (s : Str) :
    ∃ b, s = pyRStrip s ++ b ∧ ∀ c ∈ b, isPyWs c = true := by
  refine ⟨(s.reverse.takeWhile isPyWs).reverse, ?_, ?_⟩
  · conv_lhs => rw [← s.reverse_reverse,
      ← List.takeWhile_append_dropWhile isPyWs s.reverse]
    rw [List.reverse_append]
    rfl
  · intro c hc
    exact List.mem_takeWhile_imp (List.mem_reverse.mp hc)

theorem strip_decomp (s : Str) :
    ∃ a b, s = a ++ pyStrip s ++ b ∧ (∀ c ∈ a, isPyWs c = true) ∧
      (∀ c ∈ b, isPyWs c = true) := by
  obtain ⟨b, hb, hbws⟩ := rstrip_decomp (pyLStrip s)
  refine ⟨s.takeWhile isPyWs, b, ?_,
    fun c hc => List.mem_takeWhile_imp hc, hbws⟩
  calc s = s.takeWhile isPyWs ++ pyLStrip s := lstrip_decomp s
    _ = s.takeWhile isPyWs ++ (pyStrip s ++ b) := by rw [pyStrip, ← hb]
    _ = s.takeWhile isPyWs ++ pyStrip s ++ b := by rw [List.append_assoc]

/-- Emitting one more sentence out of the buffer preserves the
decomposition: the sentence is a contiguous piece of the buffer surrounded
by whitespace-only runs. -/
theorem Interleave.snoc {ss : List Str} {buf input : Str}
    (h : Interleave ss buf input) :
    ∀ {a s b w buf2 : Str}, buf = a ++ s ++ b ++ w ++ buf2 →
      (∀ c ∈ a, isPyWs c = true) → (∀ c ∈ b, isPyWs c = true) →
      (∀ c ∈ w, isPyWs c = true) →
      Interleave (ss ++ [s]) buf2 input := by
  induction h with
  | nil ws buf hws =>
    intro a s b w buf2 hbuf ha hb hw
    rw [hbuf]
    have hshape : ws ++ (a ++ s ++ b ++ w ++ buf2) =
        (ws ++ a) ++ s ++ ((b ++ w) ++ buf2) := by
      simp [List.append_assoc]
    rw [hshape]
    refine Interleave.cons (ws ++ a) s [] ((b ++ w) ++ buf2) buf2 ?_
      (Interleave.nil (b ++ w) buf2 ?_)
    · intro c hc
      rcases List.mem_append.mp hc with hc1 | hc2
      · exact hws c hc1
      · exact ha c hc2
    · intro c hc
      rcases List.mem_append.mp hc with hc1 | hc2
      · exact hb c hc1
      · exact hw c hc2
  | cons ws s0 ss mid buf hws hmid ih =>
    intro a s b w buf2 hbuf ha hb hw
    exact Interleave.cons ws s0 (ss ++ [s]) _ buf2 hws (ih hbuf ha hb hw)

/-- Appending a chunk to the buffer appends it to the input. -/
theorem Interleave.appendChunk {ss : List Str} {buf input : Str}
    (h : Interleave ss buf input) (chunk : Str) :
    Interleave ss (buf ++ chunk) (input ++ chunk) := by
  induction h with
  | nil ws buf hws =>
    rw [List.append_assoc]
    exact Interleave.nil ws (buf ++ chunk) hws
  | cons ws s ss mid buf hws hmid ih =>
    have hshape : (ws ++ s ++ mid) ++ chunk = ws ++ s ++ (mid ++ chunk) := by
      simp [List.append_assoc]
    rw [hshape]
    exact Interleave.cons ws s ss (mid ++ chunk) (buf ++ chunk) hws ih

/-- The `add_chunk` loop only ever removes a sentence (plus surrounding
whitespace) from the front of the buffer, preserving `Interleave`. -/
theorem addChunkLoop_interleave : ∀ (fuel : Nat) (buffer : Str)
    (searchPos : Nat) {ss : List Str} {input : Str},
    Interleave ss buffer input →
    Interleave (ss ++ (addChunkLoop fuel buffer searchPos).1)
      (addChunkLoop fuel buffer searchPos).2 input := by
  intro fuel
  induction fuel with
  | zero =>
    intro buffer searchPos ss input h
    simpa [addChunkLoop] using h
  | succ fuel ih =>
    intro buffer searchPos ss input h
    cases hfb : findBoundary (buffer.drop searchPos) with
    | none => simpa [addChunkLoop, hfb] using h
    | some r =>
      obtain ⟨mstart, punctLen, mEnd⟩ := r
      cases hfp : isFalsePositive
          (pyStrip (buffer.take (searchPos + mstart + punctLen))) with
      | true =>
        have hrec := ih buffer (searchPos + mEnd - 1) h
        simpa [addChunkLoop, hfb, hfp] using hrec
      | false =>
        obtain ⟨a, b, hdecomp, ha, hb⟩ :=
          strip_decomp (buffer.take (searchPos + mstart + punctLen))
        have hdrop := lstrip_decomp (buffer.drop (searchPos + mstart + punctLen))
        have hbuf : buffer =
            a ++ pyStrip (buffer.take (searchPos + mstart + punctLen)) ++ b ++
              ((buffer.drop (searchPos + mstart + punctLen)).takeWhile isPyWs)
              ++ pyLStrip (buffer.drop (searchPos + mstart + punctLen)) := by
          calc buffer = buffer.take (searchPos + mstart + punctLen) ++
                buffer.drop (searchPos + mstart + punctLen) :=
              (List.take_append_drop (searchPos + mstart + punctLen) buffer).symm
            _ = (a ++ pyStrip (buffer.take (searchPos + mstart + punctLen)) ++ b)
                ++ (((buffer.drop (searchPos + mstart + punctLen)).takeWhile
                    isPyWs) ++
                  pyLStrip (buffer.drop (searchPos + mstart + punctLen))) := by
              rw [← hdecomp, ← hdrop]
            _ = a ++ pyStrip (buffer.take (searchPos + mstart + punctLen)) ++ b
                ++ ((buffer.drop (searchPos + mstart + punctLen)).takeWhile
                  isPyWs)
                ++ pyLStrip (buffer.drop (searchPos + mstart + punctLen)) := by
              simp [List.append_assoc]
        have hsnoc := Interleave.snoc h hbuf ha hb
          (fun c hc => List.mem_takeWhile_imp hc)
        have hrec := ih
          (pyLStrip (buffer.drop (searchPos + mstart + punctLen))) 0 hsnoc
        simpa [addChunkLoop, hfb, hfp, List.append_assoc] using hrec

/-- Feeding chunks preserves `Interleave` across `add_chunk` calls. -/
theorem runChunks_interleave : ∀ (chunks : List Str) (buffer : Str)
    {ss : List Str} {input : Str}, Interleave ss buffer input →
    Interleave (ss ++ (runChunks buffer chunks).1)
      (runChunks buffer chunks).2 (input ++ chunks.flatten) := by
  intro chunks
  induction chunks with
  | nil =>
    intro buffer ss input h
    simpa [runChunks] using h
  | cons chunk rest ih =>
    intro buffer ss input h
    have h1 := Interleave.appendChunk h chunk
    have h2 := addChunkLoop_interleave
      (((buffer ++ chunk).length + 2) * ((buffer ++ chunk).length + 2))
      (buffer ++ chunk) 0 h1
    have h3 := @ih (addChunk buffer chunk).2 (ss ++ (addChunk buffer chunk).1)
      (input ++ chunk) (by simpa [addChunk] using h2)
    simpa [runChunks, List.append_assoc] using h3

/-- C4 amended: for every input stream, the concatenated input decomposes as
the emitted sentences (including the final flush) in source order, separated
by whitespace-only runs: the segmenter preserves every non-whitespace
character in order and drops only whitespace at the detected boundaries
(including the space after each sentence and trailing whitespace). -/
theorem segmenter_interleave (chunks : List Str) :
    Interleave ((runChunks [] chunks).1 ++ [flush (runChunks [] chunks).2])
      [] chunks.flatten := by
  have h0 : Interleave ([] : List Str) ([] : Str) ([] : Str) := by
    have := Interleave.nil ([] : Str) ([] : Str) (by intro c hc; simp at hc)
    simpa using this
  have h1 := runChunks_interleave chunks [] h0
  simp only [List.nil_append] at h1
  obtain ⟨a, b, hd, ha, hb⟩ := strip_decomp (runChunks [] chunks).2
  have hbuf : (runChunks [] chunks).2 =
      a ++ pyStrip (runChunks [] chunks).2 ++ b ++ [] ++ [] := by
    simpa using hd
  have := Interleave.snoc h1 hbuf ha hb (by intro c hc; simp at hc)
  simpa [flush] using this

end SentenceSeg

namespace PyStr

/-- Python list/str prefix test: `pattern` begins `s`. -/
def leadsStr : Str → Str → Bool
  | [], _ => true
  | _ :: _, [] => false
  | a :: pa, b :: pb => a = b && leadsStr pa pb

/-- Python `pattern in s` (also `s.find(pattern) >= 0`). -/
def hasSubstr (pat : Str) : Str → Bool
  | [] => leadsStr pat []
  | c :: rest => leadsStr pat (c :: rest) || hasSubstr pat rest

end PyStr

namespace Engine

open PyStr Graph

/-- Observer-facing events broadcast by the engine slice, plus the
`cancelSignal` action recording `asyncio.Task.cancel()` on a per-task
handle.  Payload fields not read by any claim (timestamps, durations,
progress fractions) are dropped. -/
inductive Event where
  | workflowStarted
  | workflowCompleted (outcome : Str)
  | elementActivated (id type name : Str)
  | elementCompleted (id : Str)
  | taskProgress (id : Str)
  | taskError (id : Str)
  | taskCancelled (id reason : Str)
  | cancelSignal (id : Str)
  deriving DecidableEq

/-- How one executor run ends: normal return, a raised exception
(`type(e).__name__` and `str(e)`), or `asyncio.CancelledError`. -/
inductive ExecOut where
  | normal
  | raised (typeName msg : Str)
  | cancelled
  deriving DecidableEq

/-- The exceptions the engine distinguishes: an ordinary `Exception`, the
`EventSubProcessHandledError` sentinel (workflow_engine.py lines 20-29,
carrying the subprocess name and the original error), and
`asyncio.CancelledError` (which is not an `Exception` in Python 3.8+). -/
inductive EngineExn where
  | err (typeName msg : Str)
  | handled (subprocessName typeName msg : Str)
  | cancelled
  deriving DecidableEq

/-- Result of a fuel-bounded engine call: a value, a propagating exception,
or fuel exhaustion (modelling nontermination, which the Python code does not
rule out). -/
inductive Res (α : Type) where
  | ok (a : α)
  | exn (e : EngineExn)
  | diverge
  deriving DecidableEq

/-- The engine instance state threaded through the slice: the variable
context (values as rendered strings), the key sets of `active_tasks`,
`running_tasks`, `event_subprocess_triggered` and `event_subprocess_tasks`,
the `compensation_handlers` dict (task id, boundary element, in insertion
order), and the emitted event trace. -/
structure EngineSt where
  context : List (Str × Str)
  activeTasks : List Str
  runningTasks : List Str
  compensationHandlers : List (Str × Element)
  eventSubprocessTriggered : List Str
  eventSubprocessTasks : List Str
  trace : List Event

/-- Python dict assignment `d[k] = v`: replace the first binding in place,
else append (insertion order preserved). -/
def dictSetStr (l : List (Str × Str)) (k v : Str) : List (Str × Str) :=
  match l with
  | [] => [(k, v)]
  | p :: rest => if p.1 = k then (k, v) :: rest else p :: dictSetStr rest k v

/-- Python dict assignment for the compensation-handler dict. -/
def dictSetComp (l : List (Str × Element)) (k : Str) (v : Element) :
    List (Str × Element) :=
  match l with
  | [] => [(k, v)]
  | p :: rest => if p.1 = k then (k, v) :: rest else p :: dictSetComp rest k v

/-- Python `d[k] = ...` on a dict modelled as a key list. -/
def addKey (l : List Str) (k : Str) : List Str :=
  if l.contains k then l else l ++ [k]

/-- Python `del d[k]` on a dict modelled as a key list. -/
def delKey (l : List Str) (k : Str) : List Str :=
  l.filter (fun x => x ≠ k)

/-- Broadcast one event. -/
def emit (st : EngineSt) (ev : Event) : EngineSt :=
  { st with trace := st.trace ++ [ev] }

/-- The `finally` removals of `execute_task_body` (lines 531-536). -/
def removeTask (st : EngineSt) (taskId : Str) : EngineSt :=
  { st with
    activeTasks := delKey st.activeTasks taskId,
    runningTasks := delKey st.runningTasks taskId }

/-- The pluggable behaviour the engine slice delegates to.  `executor`
models `executor.execute(task, context)` as a progress-event count, the
mutated context, and the final outcome.  The remaining fields model the
engine code paths whose behaviour is concurrent (gateway merge locks, timer
boundary races) or iterative over executors (multi-instance, loop); the
Engine theorems carry hypotheses under which these paths are unreachable. -/
structure EngineConfig where
  executor : Element → List (Str × Str) → Nat × List (Str × Str) × ExecOut
  gatewayExec : Workflow → Element → EngineSt → EngineSt × Res (List Element)
  multiInstanceExec : Workflow → Element → EngineSt → EngineSt × Res Unit
  loopExec : Workflow → Element → EngineSt → EngineSt × Res Unit
  timerBoundariesExec : Workflow → Element → List Element → EngineSt →
    EngineSt × Res Bool
  combinedBoundariesExec : Workflow → Element → List Element → List Element →
    EngineSt → EngineSt × Res Bool

/-- `boundary.properties.get('errorCode', '')`. -/
def boundaryCode (b : Element) : Str := b.properties.errorCode.getD []

mutual

/-- `WorkflowEngine.execute_from_element` (workflow_engine.py lines
170-254).  The recursion into several next elements models
`asyncio.gather(..., return_exceptions=True)` by running the branches in
sequence and discarding their exceptions, as the code does (it only logs
cancellations and never re-raises branch results). -/
def executeFromElement (cfg : EngineConfig) (wf : Workflow) :
    Nat → Element → EngineSt → EngineSt × Res Unit
  | 0, _, st => (st, .diverge)
  | fuel + 1, element, st =>
    let st1 := emit st (.elementActivated element.id element.type element.name)
    let body : EngineSt × Res (Option (List Element) × Bool) :=
      if element.isTask then
        match executeTaskWithBoundaryEvents cfg wf fuel element st1 with
        | (st2, .ok cancelled) => (st2, .ok (none, cancelled))
        | (st2, .exn e) => (st2, .exn e)
        | (st2, .diverge) => (st2, .diverge)
      else if element.isGateway then
        match cfg.gatewayExec wf element st1 with
        | (st2, .ok nexts) => (st2, .ok (some nexts, false))
        | (st2, .exn e) => (st2, .exn e)
        | (st2, .diverge) => (st2, .diverge)
      else if element.isEvent then
        match handleEvent cfg wf fuel element st1 with
        | (st2, .ok _) => (st2, .ok (none, false))
        | (st2, .exn e) => (st2, .exn e)
        | (st2, .diverge) => (st2, .diverge)
      else
        -- unknown element type: warning only, continue to outgoing flows
        (st1, .ok (none, false))
    let afterBody : EngineSt × Res Unit :=
      match body with
      | (st2, .exn e) => (st2, .exn e)
      | (st2, .diverge) => (st2, .diverge)
      | (st2, .ok (nextsOpt, cancelled)) =>
        if cancelled then (st2, .ok ())
        else
          let st3 := emit st2 (.elementCompleted element.id)
          let nexts := match nextsOpt with
            | some ns => ns
            | none => wf.getOutgoingElements element
          match nexts with
          | [] => (st3, .ok ())
          | [single] => executeFromElement cfg wf fuel single st3
          | several => gatherBranches cfg wf fuel several st3
    match afterBody with
    | (st4, .exn (.err t m)) =>
      (emit st4 (.taskError element.id), .exn (.err t m))
    | other => other

/-- The parallel branch of `execute_from_element` (lines 224-232):
`asyncio.gather` with `return_exceptions=True`, whose captured branch
exceptions are never re-raised. -/
def gatherBranches (cfg : EngineConfig) (wf : Workflow) :
    Nat → List Element → EngineSt → EngineSt × Res Unit
  | _, [], st => (st, .ok ())
  | 0, _, st => (st, .diverge)
  | fuel + 1, el :: rest, st =>
    match executeFromElement cfg wf fuel el st with
    | (st2, .diverge) => (st2, .diverge)
    | (st2, _) => gatherBranches cfg wf fuel rest st2

/-- A `for elem in ...: await self.execute_from_element(elem)` loop, with
exceptions propagating out of the loop. -/
def executeRunList (cfg : EngineConfig) (wf : Workflow) :
    Nat → List Element → EngineSt → EngineSt × Res Unit
  | _, [], st => (st, .ok ())
  | 0, _, st => (st, .diverge)
  | fuel + 1, el :: rest, st =>
    match executeFromElement cfg wf fuel el st with
    | (st2, .ok _) => executeRunList cfg wf fuel rest st2
    | (st2, .exn e) => (st2, .exn e)
    | (st2, .diverge) => (st2, .diverge)

/-- `WorkflowEngine.execute_task_with_boundary_events` (lines 853-903).
Note the compensation handlers are registered BEFORE the task body runs. -/
def executeTaskWithBoundaryEvents (cfg : EngineConfig) (wf : Workflow) :
    Nat → Element → EngineSt → EngineSt × Res Bool
  | 0, _, st => (st, .diverge)
  | fuel + 1, task, st =>
    let errorBoundaries := wf.elements.filter (fun e =>
      e.type == "errorBoundaryEvent".data && e.attachedToRef == some task.id)
    let timerBoundaries := wf.elements.filter (fun e =>
      e.type == "timerBoundaryEvent".data && e.attachedToRef == some task.id)
    let compensationBoundaries := wf.elements.filter (fun e =>
      e.type == "compensationBoundaryEvent".data &&
        e.attachedToRef == some task.id)
    let st1 := compensationBoundaries.foldl (fun s cb =>
      { s with compensationHandlers :=
          dictSetComp s.compensationHandlers task.id cb }) st
    if errorBoundaries.isEmpty && timerBoundaries.isEmpty then
      match executeTask cfg wf fuel task st1 with
      | (st2, .ok _) => (st2, .ok false)
      | (st2, .exn e) => (st2, .exn e)
      | (st2, .diverge) => (st2, .diverge)
    else if !errorBoundaries.isEmpty && timerBoundaries.isEmpty then
      executeTaskWithErrorBoundaries cfg wf fuel task errorBoundaries st1
    else if !timerBoundaries.isEmpty && errorBoundaries.isEmpty then
      cfg.timerBoundariesExec wf task timerBoundaries st1
    else
      cfg.combinedBoundariesExec wf task errorBoundaries timerBoundaries st1

/-- `WorkflowEngine.execute_task_with_error_boundaries` (lines 905-982).
Its `except Exception` also catches the sentinel, exactly as in Python. -/
def executeTaskWithErrorBoundaries (cfg : EngineConfig) (wf : Workflow) :
    Nat → Element → List Element → EngineSt → EngineSt × Res Bool
  | 0, _, _, st => (st, .diverge)
  | fuel + 1, task, errorBoundaries, st =>
    match executeTask cfg wf fuel task st with
    | (st2, .ok _) => (st2, .ok false)
    | (st2, .exn .cancelled) => (st2, .exn .cancelled)
    | (st2, .diverge) => (st2, .diverge)
    | (st2, .exn e) =>
      let errorType := match e with
        | .err t _ => t
        | .handled _ _ _ => "EventSubProcessHandledError".data
        | .cancelled => []
      let errorMsg := match e with
        | .err _ m => m
        | .handled sp _ _ => "Error handled by Event Sub-Process: ".data ++ sp
        | .cancelled => []
      match errorBoundaries.find? (fun b =>
          (boundaryCode b).isEmpty || errorType == boundaryCode b ||
            hasSubstr (boundaryCode b) errorMsg) with
      | some boundary =>
        let st3 := emit st2 (.elementActivated boundary.id boundary.type
          (boundary.name ++ " (caught ".data ++ errorType ++ ")".data))
        let ctx4 := dictSetStr (dictSetStr st3.context
          (boundary.id ++ "_errorType".data) errorType)
          (boundary.id ++ "_errorMessage".data) errorMsg
        let st4 := { st3 with context := ctx4 }
        let st5 := emit st4 (.elementCompleted boundary.id)
        match executeRunList cfg wf fuel (wf.getOutgoingElements boundary)
            st5 with
        | (st6, .ok _) =>
          (st6, .ok (boundary.properties.cancelActivity.getD true))
        | (st6, .exn e2) => (st6, .exn e2)
        | (st6, .diverge) => (st6, .diverge)
      | none =>
        match checkAndTriggerLoop cfg fuel
            (wf.elements.filter (fun x => x.type == "eventSubProcess".data))
            errorMsg st2 with
        | (st3, .ok (some sp)) => (st3, .exn (.handled sp.name errorType errorMsg))
        | (st3, .ok none) => (st3, .exn e)
        | (st3, .exn e2) => (st3, .exn e2)
        | (st3, .diverge) => (st3, .diverge)

/-- `WorkflowEngine.execute_task` (lines 538-559).  The trailing userTask
rejection check only reads the context and logs, so it leaves the state
unchanged. -/
def executeTask (cfg : EngineConfig) (wf : Workflow) :
    Nat → Element → EngineSt → EngineSt × Res Unit
  | 0, _, st => (st, .diverge)
  | fuel + 1, task, st =>
    if task.properties.isMultiInstance then cfg.multiInstanceExec wf task st
    else if !(task.properties.loopCondition.getD []).isEmpty then
      cfg.loopExec wf task st
    else executeTaskBody cfg wf fuel task st

/-- `WorkflowEngine.execute_task_body` (lines 469-536): register the task as
active and running, run the executor (broadcasting its progress), and on an
ordinary exception consult the error event sub-processes, raising the
sentinel when one catches.  The `finally` removals are applied on every exit
path (on the diverge path the Python never exits, so no removal applies). -/
def executeTaskBody (cfg : EngineConfig) (wf : Workflow) :
    Nat → Element → EngineSt → EngineSt × Res Unit
  | 0, _, st => (st, .diverge)
  | fuel + 1, task, st =>
    let st1 := { st with
      activeTasks := addKey st.activeTasks task.id,
      runningTasks := addKey st.runningTasks task.id }
    let r := cfg.executor task st1.context
    let st2 := { st1 with
      context := r.2.1,
      trace := st1.trace ++ List.replicate r.1 (.taskProgress task.id) }
    match r.2.2 with
    | .normal => (removeTask st2 task.id, .ok ())
    | .cancelled => (removeTask st2 task.id, .exn .cancelled)
    | .raised t m =>
      match checkAndTriggerLoop cfg fuel
          (wf.elements.filter (fun x => x.type == "eventSubProcess".data))
          m st2 with
      | (st3, .ok (some sp)) =>
        (removeTask st3 task.id, .exn (.handled sp.name t m))
      | (st3, .ok none) => (removeTask st3 task.id, .exn (.err t m))
      | (st3, .exn e2) => (removeTask st3 task.id, .exn e2)
      | (st3, .diverge) => (st3, .diverge)

/-- The `for subprocess in error_subprocesses` loop of
`WorkflowEngine.check_and_trigger_error_subprocess` (lines 1376-1434),
applied to the `eventSubProcess` elements of the current workflow. -/
def checkAndTriggerLoop (cfg : EngineConfig) :
    Nat → List Element → Str → EngineSt → EngineSt × Res (Option Element)
  | 0, _, _, st => (st, .diverge)
  | _ + 1, [], _, st => (st, .ok none)
  | fuel + 1, sp :: rest, errMsg, st =>
    let children := sp.childElements.getD []
    if children.isEmpty then checkAndTriggerLoop cfg fuel rest errMsg st
    else
      match children.find? (fun e => e.type == "errorStartEvent".data) with
      | none => checkAndTriggerLoop cfg fuel rest errMsg st
      | some startEvent =>
        let errorCode := startEvent.properties.errorCode.getD []
        if errorCode.isEmpty || hasSubstr errorCode errMsg then
          match triggerEventSubprocess cfg fuel sp startEvent
              (sp.properties.isInterrupting.getD true) "error".data st with
          | (st2, .ok _) => (st2, .ok (some sp))
          | (st2, .exn e) => (st2, .exn e)
          | (st2, .diverge) => (st2, .diverge)
        else checkAndTriggerLoop cfg fuel rest errMsg st

/-- `WorkflowEngine.trigger_event_subprocess` (lines 1436-1507): record the
trigger, snapshot the running tasks if interrupting, run the subprocess body
as a mini workflow, then signal cancellation of the snapshotted tasks
(recovery before teardown).  Workflow swap-and-restore is implicit: the body
recursion simply receives the mini workflow. -/
def triggerEventSubprocess (cfg : EngineConfig) :
    Nat → Element → Element → Bool → Str → EngineSt → EngineSt × Res Unit
  | 0, _, _, _, _, st => (st, .diverge)
  | fuel + 1, sp, startEvent, isInterrupting, triggerType, st =>
    let st1 := { st with
      eventSubprocessTriggered := addKey st.eventSubprocessTriggered sp.id,
      context := dictSetStr st.context (sp.id ++ "_trigger".data) triggerType }
    let tasksToCancel := if isInterrupting then st1.runningTasks else []
    let children := sp.childElements.getD []
    let bodyRes : EngineSt × Res Unit :=
      if children.isEmpty then (st1, .ok ())
      else
        let childConns := sp.childConnections.getD []
        let nextElements := (childConns.filter
          (fun c => c.fromId == startEvent.id)).foldr
          (fun c acc => (children.filter (fun e => e.id == c.toId)) ++ acc) []
        executeRunList cfg ⟨children, childConns⟩ fuel nextElements st1
    match bodyRes with
    | (st2, .ok _) =>
      (tasksToCancel.foldl (fun s tid => emit s (.cancelSignal tid)) st2,
       .ok ())
    | (st2, .exn e) => (st2, .exn e)
    | (st2, .diverge) => (st2, .diverge)

/-- `WorkflowEngine.handle_event` (lines 700-721): start, end and
intermediate events pass through; a compensation throw triggers the LIFO
sweep; anything else only logs a warning. -/
def handleEvent (cfg : EngineConfig) (wf : Workflow) :
    Nat → Element → EngineSt → EngineSt × Res Unit
  | 0, _, st => (st, .diverge)
  | fuel + 1, event, st =>
    if event.type == "startEvent".data then (st, .ok ())
    else if event.type == "endEvent".data then (st, .ok ())
    else if event.type == "intermediateEvent".data then (st, .ok ())
    else if event.type == "compensationIntermediateThrowEvent".data then
      triggerCompensation cfg wf fuel st
    else (st, .ok ())

/-- `WorkflowEngine.trigger_compensation` (lines 1105-1148): run the
registered handlers in LIFO order. -/
def triggerCompensation (cfg : EngineConfig) (wf : Workflow) :
    Nat → EngineSt → EngineSt × Res Unit
  | 0, st => (st, .diverge)
  | fuel + 1, st =>
    if st.compensationHandlers.isEmpty then (st, .ok ())
    else compensationLoop cfg wf fuel
      (st.compensationHandlers.map Prod.fst).reverse st

/-- The `for task_id in task_ids` loop of `trigger_compensation`. -/
def compensationLoop (cfg : EngineConfig) (wf : Workflow) :
    Nat → List Str → EngineSt → EngineSt × Res Unit
  | 0, _, st => (st, .diverge)
  | _ + 1, [], st => (st, .ok ())
  | fuel + 1, taskId :: rest, st =>
    match st.compensationHandlers.find? (fun p => p.1 == taskId) with
    | none => compensationLoop cfg wf fuel rest st
    | some p =>
      let st1 := emit st (.elementActivated p.2.id p.2.type
        (p.2.name ++ " (compensating ".data ++ taskId ++ ")".data))
      let st2 := emit st1 (.elementCompleted p.2.id)
      match executeRunList cfg wf fuel (wf.getOutgoingElements p.2) st2 with
      | (st3, .ok _) => compensationLoop cfg wf fuel rest st3
      | (st3, .exn e) => (st3, .exn e)
      | (st3, .diverge) => (st3, .diverge)

end

/-- The engine state at the top of `start_execution` (lines 96-124): the
caller context extended with `workflowInstanceId`, the `workflow.started`
broadcast, and the monitor handles registered by
`start_event_subprocesses` (whose background bodies are the concurrency
boundary of this model: in this sequential slice only the passive error
monitors matter, and those are consulted via `check_and_trigger`). -/
def initialState (wf : Workflow) (instanceId : Str)
    (initialContext : List (Str × Str)) : EngineSt :=
  { context := dictSetStr initialContext "workflowInstanceId".data instanceId,
    activeTasks := [], runningTasks := [], compensationHandlers := [],
    eventSubprocessTriggered := [],
    eventSubprocessTasks :=
      (wf.elements.filter (fun e => e.type == "eventSubProcess".data)).map
        Element.id,
    trace := [.workflowStarted] }

/-- `WorkflowEngine.start_execution` (lines 96-168): run from the start
event; the sentinel is converted into a successful completion, an ordinary
exception into a failed completion that re-raises, and a cancellation
propagates without a completion frame (`CancelledError` is not an
`Exception`). -/
def startExecution (cfg : EngineConfig) (wf : Workflow) (fuel : Nat)
    (instanceId : Str) (initialContext : List (Str × Str)) :
    EngineSt × Res Unit :=
  let st1 := initialState wf instanceId initialContext
  match wf.getStartEvent with
  | none =>
    (emit st1 (.workflowCompleted "failed".data),
     .exn (.err "ValueError".data "No start event found in workflow".data))
  | some startEvent =>
    match executeFromElement cfg wf fuel startEvent st1 with
    | (st2, .ok _) => (emit st2 (.workflowCompleted "success".data), .ok ())
    | (st2, .exn (.handled _ _ _)) =>
      (emit st2 (.workflowCompleted "success".data), .ok ())
    | (st2, .exn .cancelled) => (st2, .exn .cancelled)
    | (st2, .exn (.err t m)) =>
      (emit st2 (.workflowCompleted "failed".data), .exn (.err t m))
    | (st2, .diverge) => (st2, .diverge)

/-- `WorkflowEngine.cancel_competing_tasks` (lines 256-308), over the key
sets of `active_tasks` and `running_tasks` (in `execute_task_body` a task is
registered under its own id, so the stored element's id equals the key).
Returns the two updated key sets and the emitted actions in order. -/
def cancelCompetingTasks (gatewayName : Str) :
    List Connection → List Str → List Str → List Str × List Str × List Event
  | [], act, run => (act, run, [])
  | conn :: conns, act, run =>
    if act.contains conn.fromId then
      let ev1 : Event := .taskCancelled conn.fromId
        ("Another approval path completed first at ".data ++ gatewayName)
      let runStep : List Str × List Event :=
        if run.contains conn.fromId then
          (delKey run conn.fromId, [Event.cancelSignal conn.fromId])
        else (run, [])
      let r := cancelCompetingTasks gatewayName conns (delKey act conn.fromId)
        runStep.1
      (r.1, r.2.1, ev1 :: (runStep.2 ++ r.2.2))
    else cancelCompetingTasks gatewayName conns act run

end Engine

namespace Engine

open Graph

/-- An empty engine state, as at the start of execution (before
`start_execution` seeds the context). -/
def emptyState : EngineSt :=
  { context := [], activeTasks := [], runningTasks := [],
    compensationHandlers := [], eventSubprocessTriggered := [],
    eventSubprocessTasks := [], trace := [] }

/-- A task with an attached compensation boundary whose executor raises. -/
def taskBook : Element := .mk "T2".data "task".data "Book".data none {} none none

def compBoundary : Element := .mk "CB".data "compensationBoundaryEvent".data
  "UndoBook".data (some "T2".data) {} none none

def wfC5 : Workflow := ⟨[taskBook, compBoundary], []⟩

/-- A config whose executor always raises `RuntimeError('boom')`. -/
def cfgC5 : EngineConfig :=
  { executor := fun _ ctx => (0, ctx, .raised "RuntimeError".data "boom".data),
    gatewayExec := fun _ _ st => (st, .ok []),
    multiInstanceExec := fun _ _ st => (st, .ok ()),
    loopExec := fun _ _ st => (st, .ok ()),
    timerBoundariesExec := fun _ _ _ st => (st, .ok false),
    combinedBoundariesExec := fun _ _ _ _ st => (st, .ok false) }

/-- C5: `execute_task_with_boundary_events` registers the compensation
handler BEFORE the task body runs (line 882), and nothing removes it when
the task fails: after the failing run the handler for `T2` is still
registered, although the task raised and no completion event for it was
emitted. -/
theorem compensation_handler_survives_failure :
    (executeTaskWithBoundaryEvents cfgC5 wfC5 20 taskBook
        emptyState).1.compensationHandlers.map Prod.fst = ["T2".data] ∧
    (executeTaskWithBoundaryEvents cfgC5 wfC5 20 taskBook emptyState).2 =
      .exn (.err "RuntimeError".data "boom".data) ∧
    Event.elementCompleted "T2".data ∉
      (executeTaskWithBoundaryEvents cfgC5 wfC5 20 taskBook
        emptyState).1.trace := by
  decide

/-- C7: every cooperative cancellation signal issued by
`cancel_competing_tasks` is strictly preceded, in its action sequence, by
the `task.cancelled` broadcast for the same node. -/
theorem cancelCompetingTasks_cancel_before_signal (gatewayName : Str) :
    ∀ (conns : List Connection) (act run : List Str) (pre post : List Event)
      (nodeId : Str),
      (cancelCompetingTasks gatewayName conns act run).2.2 =
        pre ++ Event.cancelSignal nodeId :: post →
      Event.taskCancelled nodeId
        ("Another approval path completed first at ".data ++ gatewayName)
        ∈ pre := by
  intro conns
  induction conns with
  | nil =>
    intro act run pre post nodeId h
    rw [cancelCompetingTasks] at h
    exact absurd h.symm (List.append_ne_nil_of_right_ne_nil pre (by simp))
  | cons conn rest ih =>
    intro act run pre post nodeId h
    cases hact : act.contains conn.fromId with
    | false =>
      simp only [cancelCompetingTasks, hact, Bool.false_eq_true,
        if_false] at h
      exact ih act run pre post nodeId h
    | true =>
      cases hrun : run.contains conn.fromId with
      | true =>
        simp only [cancelCompetingTasks, hact, hrun, if_true,
          List.singleton_append, List.cons_append] at h
        cases pre with
        | nil => simp at h
        | cons e1 pre2 =>
          rw [List.cons_append] at h
          injection h with h1 h2
          cases pre2 with
          | nil =>
            rw [List.nil_append] at h2
            injection h2 with h3 h4
            injection h3 with h5
            subst h5
            rw [← h1]
            simp
          | cons e2 pre3 =>
            rw [List.cons_append] at h2
            injection h2 with h3 h4
            exact List.mem_cons_of_mem _ (List.mem_cons_of_mem _
              (ih _ _ pre3 post nodeId h4))
      | false =>
        simp only [cancelCompetingTasks, hact, hrun, if_true,
          Bool.false_eq_true, if_false, List.nil_append] at h
        cases pre with
        | nil => simp at h
        | cons e1 pre2 =>
          rw [List.cons_append] at h
          injection h with h1 h2
          exact List.mem_cons_of_mem _ (ih _ _ pre2 post nodeId h2)

/-- Witness for C7 at a concrete state: one active, running task on a losing
path; its cancel signal at index 1 is preceded by its `task.cancelled` at
index 0. -/
theorem cancelCompetingTasks_cancel_before_signal_witness :
    Event.taskCancelled "A".data
      ("Another approval path completed first at ".data ++ "G".data) ∈
      [Event.taskCancelled "A".data
        ("Another approval path completed first at ".data ++ "G".data)] :=
  cancelCompetingTasks_cancel_before_signal "G".data
    [⟨"c".data, "A".data, "j".data, [], {}⟩] ["A".data] ["A".data]
    [Event.taskCancelled "A".data
      ("Another approval path completed first at ".data ++ "G".data)] []
    "A".data (by decide)

end Engine

namespace Engine

open Graph

/-- The `task.error` events of a trace. -/
def isTaskErrorEv : Event → Bool
  | .taskError _ => true
  | _ => false

def countTaskError (tr : List Event) : Nat := tr.countP isTaskErrorEv

/-- An ordinary-`Exception` outcome (the only outcome on which
`execute_from_element` broadcasts `task.error`). -/
def isErr : Res α → Bool
  | .exn (.err _ _) => true
  | _ => false

theorem countTaskError_append (a b : List Event) :
    countTaskError (a ++ b) = countTaskError a + countTaskError b := by
  simp [countTaskError, List.countP_append]

theorem countTaskError_emit (st : EngineSt) (ev : Event)
    (h : isTaskErrorEv ev = false) :
    countTaskError (emit st ev).trace = countTaskError st.trace := by
  simp [emit, countTaskError, List.countP_append, List.countP_cons, h]

theorem countTaskError_replicate (n : Nat) (id : Str) :
    countTaskError (List.replicate n (.taskProgress id)) = 0 := by
  induction n with
  | zero => simp [countTaskError]
  | succ n ih =>
    simp only [List.replicate, countTaskError, List.countP_cons,
      isTaskErrorEv] at ih ⊢
    simp [ih]

/-- An element that triggers none of the abstracted engine paths: not a
gateway, no timer or error boundary role, not multi-instance, no loop
condition. -/
def plainElement (e : Element) : Bool :=
  !e.isGateway && e.type != "timerBoundaryEvent".data &&
  e.type != "errorBoundaryEvent".data &&
  !e.properties.isMultiInstance &&
  (e.properties.loopCondition.getD []).isEmpty

/-- Every source node has at most one outgoing connection. -/
def seqConns : List Connection → Bool
  | [] => true
  | c :: rest => rest.all (fun c2 => c.fromId != c2.fromId) && seqConns rest

/-- The body of an event sub-process is a flat sequential graph. -/
def plainChildren (sp : Element) : Bool :=
  seqConns (sp.childConnections.getD []) &&
  (sp.childElements.getD []).all (fun ch =>
    plainElement ch && (ch.childElements.getD []).isEmpty &&
    (ch.childConnections.getD []).isEmpty)

/-- A workflow on which only the sequential, boundary-free engine paths are
reachable: sequential flows, and only plain elements with flat
event-sub-process bodies. -/
def plainWf (wf : Workflow) : Bool :=
  seqConns wf.connections &&
  wf.elements.all (fun e => plainElement e && plainChildren e)

theorem plainElement_spec {e : Element} (h : plainElement e = true) :
    e.isGateway = false ∧ (e.type == "timerBoundaryEvent".data) = false ∧
    (e.type == "errorBoundaryEvent".data) = false ∧
    e.properties.isMultiInstance = false ∧
    (e.properties.loopCondition.getD []).isEmpty = true := by
  simp only [plainElement, Bool.and_eq_true, Bool.not_eq_true', bne] at h
  exact ⟨h.1.1.1.1, h.1.1.1.2, h.1.1.2, h.1.2, h.2⟩

theorem plainWf_elem {wf : Workflow} {e : Element} (h : plainWf wf = true)
    (he : e ∈ wf.elements) :
    plainElement e = true ∧ plainChildren e = true := by
  simp only [plainWf, Bool.and_eq_true] at h
  have := List.all_eq_true.mp h.2 e he
  simpa using this

theorem plainWf_seq {wf : Workflow} (h : plainWf wf = true) :
    seqConns wf.connections = true := by
  simp only [plainWf, Bool.and_eq_true] at h
  exact h.1

theorem plainWf_mini {sp : Element} (h : plainChildren sp = true) :
    plainWf ⟨sp.childElements.getD [], sp.childConnections.getD []⟩ = true := by
  simp only [plainChildren, Bool.and_eq_true] at h
  obtain ⟨hc, he⟩ := h
  rw [plainWf, Bool.and_eq_true]
  refine ⟨hc, List.all_eq_true.mpr ?_⟩
  intro ch hch
  have h3 := List.all_eq_true.mp he ch hch
  simp only [Bool.and_eq_true] at h3
  obtain ⟨⟨hpe, hce⟩, hcc⟩ := h3
  have hce2 : ch.childElements.getD [] = [] := by
    simpa [List.isEmpty_iff] using hce
  have hcc2 : ch.childConnections.getD [] = [] := by
    simpa [List.isEmpty_iff] using hcc
  simp [plainChildren, hce2, hcc2, hpe, seqConns]

theorem seqConns_filter {x : Str} : ∀ conns : List Connection,
    seqConns conns = true →
    (conns.filter (fun c => c.fromId = x)).length ≤ 1 := by
  intro conns
  induction conns with
  | nil => simp
  | cons c rest ih =>
    intro h
    simp only [seqConns, Bool.and_eq_true] at h
    obtain ⟨hall, hrest⟩ := h
    by_cases hc : c.fromId = x
    · have hnil : rest.filter (fun c2 => c2.fromId = x) = [] := by
        rw [List.filter_eq_nil_iff]
        intro c2 hc2
        have := List.all_eq_true.mp hall c2 hc2
        simp only [bne_iff_ne, ne_eq] at this
        simp only [decide_eq_true_eq]
        rw [← hc]
        exact fun hx => this hx.symm
      simp [List.filter, hc, hnil]
    · have hd : decide (c.fromId = x) = false := by
        simpa using hc
      simp only [List.filter, hd]
      exact ih hrest

theorem outgoing_le_one {wf : Workflow} (h : seqConns wf.connections = true)
    (e : Element) : (wf.getOutgoingElements e).length ≤ 1 := by
  have h1 := @seqConns_filter e.id wf.connections h
  have h2 : (wf.getOutgoingConnections e).length ≤ 1 := h1
  calc (wf.getOutgoingElements e).length
      ≤ (wf.getOutgoingConnections e).length :=
        List.length_filterMap_le _ _
    _ ≤ 1 := h2

theorem mem_of_getElementById {wf : Workflow} {i : Str} {e : Element}
    (h : wf.getElementById i = some e) : e ∈ wf.elements :=
  List.mem_of_find?_eq_some h

theorem mem_of_outgoingElements {wf : Workflow} {el e : Element}
    (h : e ∈ wf.getOutgoingElements el) : e ∈ wf.elements := by
  unfold Workflow.getOutgoingElements at h
  obtain ⟨c, _, he⟩ := List.mem_filterMap.mp h
  exact mem_of_getElementById he

theorem boundaries_nil {wf : Workflow} (hpl : plainWf wf = true)
    (ty : Str) (hty : ty = "errorBoundaryEvent".data ∨
      ty = "timerBoundaryEvent".data) (i : Str) :
    wf.elements.filter (fun e => e.type == ty &&
      e.attachedToRef == some i) = [] := by
  rw [List.filter_eq_nil_iff]
  intro e he
  have hp := plainElement_spec (plainWf_elem hpl he).1
  rcases hty with hty | hty <;> subst hty <;>
    simp [hp.2.2.1, hp.2.1]

end Engine

namespace Engine

open Graph

theorem handleEvent_of_isEvent (cfg : EngineConfig) (wf : Workflow)
    (fuel : Nat) (event : Element) (st : EngineSt)
    (h : event.isEvent = true) :
    (handleEvent cfg wf fuel event st).1 = st ∧
    isErr (handleEvent cfg wf fuel event st).2 = false := by
  cases fuel with
  | zero => exact ⟨rfl, rfl⟩
  | succ fuel =>
    simp only [Element.isEvent, List.any_eq_true, decide_eq_true_eq] at h
    obtain ⟨t, ht, hty⟩ := h
    simp only [List.mem_cons, List.mem_singleton, List.not_mem_nil,
      or_false] at ht
    rcases ht with rfl | rfl | rfl <;>
      rw [handleEvent] <;>
      simp [← hty, isErr]

end Engine

namespace Engine

open Graph


theorem foldl_comp_trace (l : List Element) (st : EngineSt) (tid : Str) :
    (l.foldl (fun s cb =>
      { s with compensationHandlers := dictSetComp s.compensationHandlers tid cb })
      st).trace = st.trace := by
  induction l generalizing st with
  | nil => rfl
  | cons cb rest ih => simp [List.foldl, ih]

theorem countTaskError_foldl_cancel (l : List Str) (st : EngineSt) :
    countTaskError ((l.foldl (fun s tid =>
      emit s (.cancelSignal tid)) st).trace) = countTaskError st.trace := by
  induction l generalizing st with
  | nil => rfl
  | cons tid rest ih =>
    simp only [List.foldl]
    rw [ih, countTaskError_emit]
    rfl

theorem mem_of_nextElements {children : List Element} {e : Element} :
    ∀ l : List Connection,
    e ∈ l.foldr (fun c acc =>
      (children.filter (fun x => x.id == c.toId)) ++ acc) [] →
    e ∈ children := by
  intro l
  induction l with
  | nil => simp
  | cons c cs ih =>
    intro h
    simp only [List.foldr] at h
    rcases List.mem_append.mp h with h1 | h2
    · exact List.mem_of_mem_filter h1
    · exact ih h2

theorem twbe_plain (cfg : EngineConfig) (wf : Workflow) (fuel : Nat)
    (task : Element) (st : EngineSt) (hpl : plainWf wf = true)
    (hmem : task ∈ wf.elements) :
    executeTaskWithBoundaryEvents cfg wf (fuel + 1) task st =
      (match executeTask cfg wf fuel task
          ((wf.elements.filter (fun e =>
            e.type == "compensationBoundaryEvent".data &&
            e.attachedToRef == some task.id)).foldl (fun s cb =>
            { s with compensationHandlers := dictSetComp s.compensationHandlers task.id cb }) st) with
       | (st2, .ok _) => (st2, .ok false)
       | (st2, .exn e) => (st2, .exn e)
       | (st2, .diverge) => (st2, .diverge)) := by
  rw [executeTaskWithBoundaryEvents]
  simp only [boundaries_nil hpl "errorBoundaryEvent".data (Or.inl rfl)
    task.id, boundaries_nil hpl "timerBoundaryEvent".data (Or.inr rfl)
    task.id, List.isEmpty_nil, Bool.and_self, if_true]

theorem plain_no_taskError : ∀ fuel : Nat,
    (∀ (cfg : EngineConfig) (wf : Workflow) (el : Element) (st : EngineSt),
      plainWf wf = true → el ∈ wf.elements →
      isErr (executeFromElement cfg wf fuel el st).2 = false →
      countTaskError (executeFromElement cfg wf fuel el st).1.trace =
        countTaskError st.trace) ∧
    (∀ (cfg : EngineConfig) (wf : Workflow) (els : List Element)
      (st : EngineSt),
      plainWf wf = true → (∀ e ∈ els, e ∈ wf.elements) →
      isErr (executeRunList cfg wf fuel els st).2 = false →
      countTaskError (executeRunList cfg wf fuel els st).1.trace =
        countTaskError st.trace) ∧
    (∀ (cfg : EngineConfig) (wf : Workflow) (task : Element) (st : EngineSt),
      plainWf wf = true → task ∈ wf.elements →
      isErr (executeTaskWithBoundaryEvents cfg wf fuel task st).2 = false →
      countTaskError
        (executeTaskWithBoundaryEvents cfg wf fuel task st).1.trace =
        countTaskError st.trace) ∧
    (∀ (cfg : EngineConfig) (wf : Workflow) (task : Element) (st : EngineSt),
      plainWf wf = true → task ∈ wf.elements →
      isErr (executeTask cfg wf fuel task st).2 = false →
      countTaskError (executeTask cfg wf fuel task st).1.trace =
        countTaskError st.trace) ∧
    (∀ (cfg : EngineConfig) (wf : Workflow) (task : Element) (st : EngineSt),
      plainWf wf = true → task ∈ wf.elements →
      isErr (executeTaskBody cfg wf fuel task st).2 = false →
      countTaskError (executeTaskBody cfg wf fuel task st).1.trace =
        countTaskError st.trace) ∧
    (∀ (cfg : EngineConfig) (sps : List Element) (errMsg : Str)
      (st : EngineSt),
      (∀ sp ∈ sps, plainChildren sp = true) →
      isErr (checkAndTriggerLoop cfg fuel sps errMsg st).2 = false →
      countTaskError (checkAndTriggerLoop cfg fuel sps errMsg st).1.trace =
        countTaskError st.trace) ∧
    (∀ (cfg : EngineConfig) (sp stev : Element) (inter : Bool) (trig : Str)
      (st : EngineSt),
      plainChildren sp = true →
      isErr (triggerEventSubprocess cfg fuel sp stev inter trig st).2 =
        false →
      countTaskError
        (triggerEventSubprocess cfg fuel sp stev inter trig st).1.trace =
        countTaskError st.trace) := by
  intro fuel
  induction fuel with
  | zero =>
    refine ⟨?_, ?_, ?_, ?_, ?_, ?_, ?_⟩
    · intro cfg wf el st _ _ _; rfl
    · intro cfg wf els st _ _ _
      cases els <;> rfl
    · intro cfg wf task st _ _ _; rfl
    · intro cfg wf task st _ _ _; rfl
    · intro cfg wf task st _ _ _; rfl
    · intro cfg sps errMsg st _ _; rfl
    · intro cfg sp stev inter trig st _ _; rfl
  | succ fuel ih =>
    obtain ⟨ihFrom, ihRun, ihTWB, ihTask, ihBody, ihCheck, ihTrig⟩ := ih
    refine ⟨?_, ?_, ?_, ?_, ?_, ?_, ?_⟩
    · -- executeFromElement
      intro cfg wf el st hpl hel hne
      have hps := plainElement_spec (plainWf_elem hpl hel).1
      have hlen := outgoing_le_one (plainWf_seq hpl) el
      rcases hnx : wf.getOutgoingElements el with _ | ⟨single, _ | ⟨b, more⟩⟩
      · -- no outgoing element
        cases hT : el.isTask with
        | true =>
          rcases hB : executeTaskWithBoundaryEvents cfg wf fuel el
              (emit st (.elementActivated el.id el.type el.name))
            with ⟨stB, resB⟩
          have hcb : isErr resB = false →
              countTaskError stB.trace = countTaskError st.trace := by
            intro hok
            have := ihTWB cfg wf el
              (emit st (.elementActivated el.id el.type el.name)) hpl hel
              (by rw [hB]; exact hok)
            rw [hB] at this
            rw [this]
            exact countTaskError_emit st
              (.elementActivated el.id el.type el.name) rfl
          cases resB with
          | ok cancelled =>
            cases cancelled with
            | true =>
              simp only [executeFromElement, hT, eq_self_iff_true, if_true, Bool.false_eq_true, if_false, hB] at hne ⊢
              exact hcb rfl
            | false =>
              simp only [executeFromElement, hT, eq_self_iff_true, if_true, Bool.false_eq_true, if_false, hB, hnx] at hne ⊢
              rw [countTaskError_emit _ (.elementCompleted el.id) rfl]
              exact hcb rfl
          | exn e =>
            cases e with
            | err t m =>
              simp only [executeFromElement, hT, eq_self_iff_true, if_true, Bool.false_eq_true, if_false, hB, isErr] at hne
              exact Bool.noConfusion hne
            | handled s t m =>
              simp only [executeFromElement, hT, eq_self_iff_true, if_true, Bool.false_eq_true, if_false, hB] at hne ⊢
              exact hcb rfl
            | cancelled =>
              simp only [executeFromElement, hT, eq_self_iff_true, if_true, Bool.false_eq_true, if_false, hB] at hne ⊢
              exact hcb rfl
          | diverge =>
            simp only [executeFromElement, hT, eq_self_iff_true, if_true, Bool.false_eq_true, if_false, hB]
            exact hcb rfl
        | false =>
          cases hE : el.isEvent with
          | true =>
            rcases hH : handleEvent cfg wf fuel el
                (emit st (.elementActivated el.id el.type el.name))
              with ⟨stH, resH⟩
            have hHE := handleEvent_of_isEvent cfg wf fuel el
              (emit st (.elementActivated el.id el.type el.name)) hE
            rw [hH] at hHE
            have hcnt : countTaskError stH.trace = countTaskError st.trace := by
              have hH1 : stH =
                  emit st (.elementActivated el.id el.type el.name) := hHE.1
              rw [hH1]
              exact countTaskError_emit st
                (.elementActivated el.id el.type el.name) rfl
            cases resH with
            | ok a =>
              simp only [executeFromElement, hT, eq_self_iff_true, if_true, Bool.false_eq_true, if_false, hps.1, hE, hH, hnx] at hne ⊢
              rw [countTaskError_emit _ (.elementCompleted el.id) rfl]
              exact hcnt
            | exn e =>
              cases e with
              | err t m => simp [isErr] at hHE
              | handled s t m =>
                simp only [executeFromElement, hT, eq_self_iff_true, if_true, Bool.false_eq_true, if_false, hps.1, hE, hH] at hne ⊢
                exact hcnt
              | cancelled =>
                simp only [executeFromElement, hT, eq_self_iff_true, if_true, Bool.false_eq_true, if_false, hps.1, hE, hH] at hne ⊢
                exact hcnt
            | diverge =>
              simp only [executeFromElement, hT, eq_self_iff_true, if_true, Bool.false_eq_true, if_false, hps.1, hE, hH]
              exact hcnt
          | false =>
            simp only [executeFromElement, hT, eq_self_iff_true, if_true, Bool.false_eq_true, if_false, hps.1, hE, hnx] at hne ⊢
            rw [countTaskError_emit _ (.elementCompleted el.id) rfl,
              countTaskError_emit _
                (.elementActivated el.id el.type el.name) rfl]
      · -- one outgoing element
        have hmemS : single ∈ wf.elements :=
          @mem_of_outgoingElements wf el single
            (by rw [hnx]; exact List.mem_singleton_self _)
        cases hT : el.isTask with
        | true =>
          rcases hB : executeTaskWithBoundaryEvents cfg wf fuel el
              (emit st (.elementActivated el.id el.type el.name))
            with ⟨stB, resB⟩
          have hcb : isErr resB = false →
              countTaskError stB.trace = countTaskError st.trace := by
            intro hok
            have := ihTWB cfg wf el
              (emit st (.elementActivated el.id el.type el.name)) hpl hel
              (by rw [hB]; exact hok)
            rw [hB] at this
            rw [this]
            exact countTaskError_emit st
              (.elementActivated el.id el.type el.name) rfl
          cases resB with
          | ok cancelled =>
            cases cancelled with
            | true =>
              simp only [executeFromElement, hT, eq_self_iff_true, if_true, Bool.false_eq_true, if_false, hB] at hne ⊢
              exact hcb rfl
            | false =>
              rcases hS : executeFromElement cfg wf fuel single
                  (emit stB (.elementCompleted el.id)) with ⟨stS, resS⟩
              have hs1 : isErr resS = false →
                  countTaskError stS.trace = countTaskError st.trace := by
                intro hok
                have := ihFrom cfg wf single
                  (emit stB (.elementCompleted el.id)) hpl hmemS
                  (by rw [hS]; exact hok)
                rw [hS] at this
                rw [this, countTaskError_emit _ (.elementCompleted el.id) rfl]
                exact hcb rfl
              cases resS with
              | ok a =>
                simp only [executeFromElement, hT, eq_self_iff_true, if_true, Bool.false_eq_true, if_false, hB, hnx, hS] at hne ⊢
                exact hs1 rfl
              | exn e =>
                cases e with
                | err t m =>
                  simp only [executeFromElement, hT, eq_self_iff_true, if_true, Bool.false_eq_true, if_false, hB, hnx, hS, isErr] at hne
                  exact Bool.noConfusion hne
                | handled s t m =>
                  simp only [executeFromElement, hT, eq_self_iff_true, if_true, Bool.false_eq_true, if_false, hB, hnx, hS] at hne ⊢
                  exact hs1 rfl
                | cancelled =>
                  simp only [executeFromElement, hT, eq_self_iff_true, if_true, Bool.false_eq_true, if_false, hB, hnx, hS] at hne ⊢
                  exact hs1 rfl
              | diverge =>
                simp only [executeFromElement, hT, eq_self_iff_true, if_true, Bool.false_eq_true, if_false, hB, hnx, hS]
                exact hs1 rfl
          | exn e =>
            cases e with
            | err t m =>
              simp only [executeFromElement, hT, eq_self_iff_true, if_true, Bool.false_eq_true, if_false, hB, isErr] at hne
              exact Bool.noConfusion hne
            | handled s t m =>
              simp only [executeFromElement, hT, eq_self_iff_true, if_true, Bool.false_eq_true, if_false, hB] at hne ⊢
              exact hcb rfl
            | cancelled =>
              simp only [executeFromElement, hT, eq_self_iff_true, if_true, Bool.false_eq_true, if_false, hB] at hne ⊢
              exact hcb rfl
          | diverge =>
            simp only [executeFromElement, hT, eq_self_iff_true, if_true, Bool.false_eq_true, if_false, hB]
            exact hcb rfl
        | false =>
          cases hE : el.isEvent with
          | true =>
            rcases hH : handleEvent cfg wf fuel el
                (emit st (.elementActivated el.id el.type el.name))
              with ⟨stH, resH⟩
            have hHE := handleEvent_of_isEvent cfg wf fuel el
              (emit st (.elementActivated el.id el.type el.name)) hE
            rw [hH] at hHE
            have hcnt : countTaskError stH.trace = countTaskError st.trace := by
              have hH1 : stH =
                  emit st (.elementActivated el.id el.type el.name) := hHE.1
              rw [hH1]
              exact countTaskError_emit st
                (.elementActivated el.id el.type el.name) rfl
            cases resH with
            | ok a =>
              rcases hS : executeFromElement cfg wf fuel single
                  (emit stH (.elementCompleted el.id)) with ⟨stS, resS⟩
              have hs1 : isErr resS = false →
                  countTaskError stS.trace = countTaskError st.trace := by
                intro hok
                have := ihFrom cfg wf single
                  (emit stH (.elementCompleted el.id)) hpl hmemS
                  (by rw [hS]; exact hok)
                rw [hS] at this
                rw [this, countTaskError_emit _ (.elementCompleted el.id) rfl]
                exact hcnt
              cases resS with
              | ok a2 =>
                simp only [executeFromElement, hT, eq_self_iff_true, if_true, Bool.false_eq_true, if_false, hps.1, hE, hH, hnx, hS] at hne ⊢
                exact hs1 rfl
              | exn e =>
                cases e with
                | err t m =>
                  simp only [executeFromElement, hT, eq_self_iff_true, if_true, Bool.false_eq_true, if_false, hps.1, hE, hH, hnx, hS, isErr] at hne
                  exact Bool.noConfusion hne
                | handled s t m =>
                  simp only [executeFromElement, hT, eq_self_iff_true, if_true, Bool.false_eq_true, if_false, hps.1, hE, hH, hnx, hS] at hne ⊢
                  exact hs1 rfl
                | cancelled =>
                  simp only [executeFromElement, hT, eq_self_iff_true, if_true, Bool.false_eq_true, if_false, hps.1, hE, hH, hnx, hS] at hne ⊢
                  exact hs1 rfl
              | diverge =>
                simp only [executeFromElement, hT, eq_self_iff_true, if_true, Bool.false_eq_true, if_false, hps.1, hE, hH, hnx, hS]
                exact hs1 rfl
            | exn e =>
              cases e with
              | err t m => simp [isErr] at hHE
              | handled s t m =>
                simp only [executeFromElement, hT, eq_self_iff_true, if_true, Bool.false_eq_true, if_false, hps.1, hE, hH] at hne ⊢
                exact hcnt
              | cancelled =>
                simp only [executeFromElement, hT, eq_self_iff_true, if_true, Bool.false_eq_true, if_false, hps.1, hE, hH] at hne ⊢
                exact hcnt
            | diverge =>
              simp only [executeFromElement, hT, eq_self_iff_true, if_true, Bool.false_eq_true, if_false, hps.1, hE, hH]
              exact hcnt
          | false =>
            rcases hS : executeFromElement cfg wf fuel single
                (emit (emit st (.elementActivated el.id el.type el.name))
                  (.elementCompleted el.id)) with ⟨stS, resS⟩
            have hs1 : isErr resS = false →
                countTaskError stS.trace = countTaskError st.trace := by
              intro hok
              have := ihFrom cfg wf single
                (emit (emit st (.elementActivated el.id el.type el.name))
                  (.elementCompleted el.id)) hpl hmemS
                (by rw [hS]; exact hok)
              rw [hS] at this
              rw [this, countTaskError_emit _ (.elementCompleted el.id) rfl,
                countTaskError_emit _
                  (.elementActivated el.id el.type el.name) rfl]
            cases resS with
            | ok a =>
              simp only [executeFromElement, hT, eq_self_iff_true, if_true, Bool.false_eq_true, if_false, hps.1, hE, hnx, hS] at hne ⊢
              exact hs1 rfl
            | exn e =>
              cases e with
              | err t m =>
                simp only [executeFromElement, hT, eq_self_iff_true, if_true, Bool.false_eq_true, if_false, hps.1, hE, hnx, hS, isErr] at hne
                exact Bool.noConfusion hne
              | handled s t m =>
                simp only [executeFromElement, hT, eq_self_iff_true, if_true, Bool.false_eq_true, if_false, hps.1, hE, hnx, hS] at hne ⊢
                exact hs1 rfl
              | cancelled =>
                simp only [executeFromElement, hT, eq_self_iff_true, if_true, Bool.false_eq_true, if_false, hps.1, hE, hnx, hS] at hne ⊢
                exact hs1 rfl
            | diverge =>
              simp only [executeFromElement, hT, eq_self_iff_true, if_true, Bool.false_eq_true, if_false, hps.1, hE, hnx, hS]
              exact hs1 rfl
      · -- two or more outgoing elements: impossible under seqConns
        rw [hnx] at hlen
        simp at hlen
    · -- executeRunList
      intro cfg wf els st hpl hmem hne
      cases els with
      | nil => rfl
      | cons el rest =>
        rcases hres : executeFromElement cfg wf fuel el st with ⟨st2, res⟩
        have h1 : isErr res = false →
            countTaskError st2.trace = countTaskError st.trace := by
          intro hok
          have := ihFrom cfg wf el st hpl (hmem el (by simp))
            (by rw [hres]; exact hok)
          rw [hres] at this
          exact this
        cases res with
        | ok a =>
          simp only [executeRunList, hres] at hne ⊢
          rw [ihRun cfg wf rest st2 hpl
            (fun e he => hmem e (List.mem_cons_of_mem _ he)) hne]
          exact h1 rfl
        | exn e =>
          simp only [executeRunList, hres] at hne ⊢
          exact h1 hne
        | diverge =>
          simp only [executeRunList, hres]
          exact h1 rfl
    · -- executeTaskWithBoundaryEvents
      intro cfg wf task st hpl hmem hne
      rw [twbe_plain cfg wf fuel task st hpl hmem] at hne ⊢
      rcases hrt : executeTask cfg wf fuel task
          ((wf.elements.filter (fun e =>
            e.type == "compensationBoundaryEvent".data &&
            e.attachedToRef == some task.id)).foldl (fun s cb =>
            { s with compensationHandlers := dictSetComp s.compensationHandlers task.id cb }) st)
        with ⟨st2, res⟩
      have htr : ((wf.elements.filter (fun e =>
            e.type == "compensationBoundaryEvent".data &&
            e.attachedToRef == some task.id)).foldl (fun s cb =>
            { s with compensationHandlers := dictSetComp s.compensationHandlers task.id cb }) st).trace
          = st.trace := foldl_comp_trace _ _ _
      have h1 : isErr res = false →
          countTaskError st2.trace = countTaskError st.trace := by
        intro hok
        have := ihTask cfg wf task _ hpl hmem (by rw [hrt]; exact hok)
        rw [hrt] at this
        rw [this, htr]
      cases res with
      | ok a =>
        simp only [hrt] at hne ⊢
        exact h1 rfl
      | exn e =>
        simp only [hrt] at hne ⊢
        cases e with
        | err t m => simp [isErr] at hne
        | handled s t m => exact h1 rfl
        | cancelled => exact h1 rfl
      | diverge =>
        simp only [hrt]
        exact h1 rfl
    · -- executeTask
      intro cfg wf task st hpl hmem hne
      have hps := plainElement_spec (plainWf_elem hpl hmem).1
      rw [executeTask] at hne ⊢
      rw [if_neg (by simp [hps.2.2.2.1]), if_neg (by
        simp [List.isEmpty_iff.mp hps.2.2.2.2])] at hne ⊢
      exact ihBody cfg wf task st hpl hmem hne
    · -- executeTaskBody
      intro cfg wf task st hpl hmem hne
      rcases hr : cfg.executor task st.context with ⟨pcount, ctx2, eout⟩
      cases eout with
      | normal =>
        simp only [executeTaskBody, hr, removeTask] at hne ⊢
        simp [countTaskError_append, countTaskError_replicate]
      | cancelled =>
        simp only [executeTaskBody, hr, removeTask] at hne ⊢
        simp [countTaskError_append, countTaskError_replicate]
      | raised t m =>
        rcases hc : checkAndTriggerLoop cfg fuel
            (wf.elements.filter (fun x => x.type == "eventSubProcess".data))
            m
            { st with
              activeTasks := addKey st.activeTasks task.id,
              runningTasks := addKey st.runningTasks task.id,
              context := ctx2,
              trace := st.trace ++
                List.replicate pcount (.taskProgress task.id) }
          with ⟨st3, rc⟩
        have hsps : ∀ sp ∈ wf.elements.filter
            (fun x => x.type == "eventSubProcess".data),
            plainChildren sp = true := by
          intro sp hspm
          exact (plainWf_elem hpl (List.mem_of_mem_filter hspm)).2
        have h1 : isErr rc = false →
            countTaskError st3.trace = countTaskError st.trace := by
          intro hok
          have := ihCheck cfg
            (wf.elements.filter (fun x => x.type == "eventSubProcess".data))
            m
            { st with
              activeTasks := addKey st.activeTasks task.id,
              runningTasks := addKey st.runningTasks task.id,
              context := ctx2,
              trace := st.trace ++
                List.replicate pcount (.taskProgress task.id) }
            hsps (by rw [hc]; exact hok)
          rw [hc] at this
          rw [this]
          simp [countTaskError_append, countTaskError_replicate]
        cases rc with
        | ok osp =>
          cases osp with
          | some sp =>
            simp only [executeTaskBody, hr, hc, removeTask] at hne ⊢
            exact h1 rfl
          | none =>
            simp only [executeTaskBody, hr, hc, isErr] at hne
            exact Bool.noConfusion hne
        | exn e2 =>
          simp only [executeTaskBody, hr, hc, removeTask] at hne ⊢
          cases e2 with
          | err t2 m2 => simp [isErr] at hne
          | handled s2 t2 m2 => exact h1 rfl
          | cancelled => exact h1 rfl
        | diverge =>
          simp only [executeTaskBody, hr, hc]
          exact h1 rfl
    · -- checkAndTriggerLoop
      intro cfg sps errMsg st hsp hne
      cases sps with
      | nil => rfl
      | cons sp rest =>
        have hrest : ∀ x ∈ rest, plainChildren x = true :=
          fun x hx => hsp x (List.mem_cons_of_mem _ hx)
        cases hch : (sp.childElements.getD []).isEmpty with
        | true =>
          simp only [checkAndTriggerLoop, hch, eq_self_iff_true, if_true]
            at hne ⊢
          exact ihCheck cfg rest errMsg st hrest hne
        | false =>
          cases hfind : (sp.childElements.getD []).find?
              (fun e => e.type == "errorStartEvent".data) with
          | none =>
            simp only [checkAndTriggerLoop, hch, Bool.false_eq_true,
              if_false, hfind] at hne ⊢
            exact ihCheck cfg rest errMsg st hrest hne
          | some stev =>
            cases hcode : ((stev.properties.errorCode.getD []).isEmpty ||
                PyStr.hasSubstr (stev.properties.errorCode.getD [])
                  errMsg) with
            | false =>
              simp only [checkAndTriggerLoop, hch, Bool.false_eq_true,
                if_false, hfind, hcode] at hne ⊢
              exact ihCheck cfg rest errMsg st hrest hne
            | true =>
              rcases hres : triggerEventSubprocess cfg fuel sp stev
                  (sp.properties.isInterrupting.getD true) "error".data st
                with ⟨st2, res⟩
              have h1 : isErr res = false →
                  countTaskError st2.trace = countTaskError st.trace := by
                intro hok
                have := ihTrig cfg sp stev
                  (sp.properties.isInterrupting.getD true) "error".data st
                  (hsp sp (List.mem_cons_self _ _))
                  (by rw [hres]; exact hok)
                rw [hres] at this
                exact this
              cases res with
              | ok a =>
                simp only [checkAndTriggerLoop, hch, Bool.false_eq_true,
                  if_false, hfind, hcode, eq_self_iff_true, if_true, hres]
                  at hne ⊢
                exact h1 rfl
              | exn e =>
                simp only [checkAndTriggerLoop, hch, Bool.false_eq_true,
                  if_false, hfind, hcode, eq_self_iff_true, if_true, hres]
                  at hne ⊢
                cases e with
                | err t m => simp [isErr] at hne
                | handled s t m => exact h1 rfl
                | cancelled => exact h1 rfl
              | diverge =>
                simp only [checkAndTriggerLoop, hch, Bool.false_eq_true,
                  if_false, hfind, hcode, eq_self_iff_true, if_true, hres]
                exact h1 rfl
    · -- triggerEventSubprocess
      intro cfg sp stev inter trig st hpc hne
      cases hch : (sp.childElements.getD []).isEmpty with
      | true =>
        simp only [triggerEventSubprocess, hch, eq_self_iff_true, if_true]
          at hne ⊢
        rw [countTaskError_foldl_cancel]
      | false =>
        rcases hres : executeRunList cfg
            ⟨sp.childElements.getD [], sp.childConnections.getD []⟩ fuel
            (((sp.childConnections.getD []).filter
              (fun c => c.fromId == stev.id)).foldr
              (fun c acc => ((sp.childElements.getD []).filter
                (fun e => e.id == c.toId)) ++ acc) [])
            { st with
              eventSubprocessTriggered :=
                addKey st.eventSubprocessTriggered sp.id,
              context := dictSetStr st.context (sp.id ++ "_trigger".data)
                trig } with ⟨st2, res⟩
        have h1 : isErr res = false →
            countTaskError st2.trace = countTaskError st.trace := by
          intro hok
          have := ihRun cfg
            ⟨sp.childElements.getD [], sp.childConnections.getD []⟩ _ _
            (plainWf_mini hpc)
            (fun e he => mem_of_nextElements _ he)
            (by rw [hres]; exact hok)
          rw [hres] at this
          exact this
        cases res with
        | ok a =>
          simp only [triggerEventSubprocess, hch, Bool.false_eq_true,
            if_false, hres] at hne ⊢
          rw [countTaskError_foldl_cancel]
          exact h1 rfl
        | exn e =>
          simp only [triggerEventSubprocess, hch, Bool.false_eq_true,
            if_false, hres] at hne ⊢
          exact h1 hne
        | diverge =>
          simp only [triggerEventSubprocess, hch, Bool.false_eq_true,
            if_false, hres]
          exact h1 rfl

/-- The C6 scenario: start → task `T` whose executor raises
`RuntimeError('boom')`, with an error event sub-process `ESP` whose body
runs the recovery task `R`. -/
def elStart : Element := .mk "start".data "startEvent".data "Start".data
  none {} none none

def elT : Element := .mk "T".data "task".data "Work".data none {} none none

def elES : Element := .mk "ES".data "errorStartEvent".data "OnError".data
  none {} none none

def elR : Element := .mk "R".data "task".data "Recover".data none {} none none

def elESP : Element := .mk "ESP".data "eventSubProcess".data "Handler".data
  none {} (some [elES, elR])
  (some [⟨"cc1".data, "ES".data, "R".data, [], {}⟩])

def connST : Connection := ⟨"c1".data, "start".data, "T".data, [], {}⟩

def wfC6 : Workflow := ⟨[elStart, elT, elESP], [connST]⟩

def cfgC6 : EngineConfig :=
  { executor := fun el ctx =>
      if el.id == "T".data then
        (1, ctx, .raised "RuntimeError".data "boom".data)
      else (1, ctx, .normal),
    gatewayExec := fun _ _ st => (st, .ok []),
    multiInstanceExec := fun _ _ st => (st, .ok ()),
    loopExec := fun _ _ st => (st, .ok ()),
    timerBoundariesExec := fun _ _ _ st => (st, .ok false),
    combinedBoundariesExec := fun _ _ _ _ st => (st, .ok false) }

def stC6 : EngineSt :=
  (executeFromElement cfgC6 wfC6 20 elStart
    (initialState wfC6 "inst".data [])).1

/-- C6: when the run from the start event raises the event-sub-process
sentinel (a task error caught by an error event sub-process),
`start_execution` converts it into a `workflow.completed` event with
outcome `success` and a successful return; and on plain sequential
workflows (`plainWf`: no gateways, no timer or error boundaries, no
multi-instance or loop markers, flat event-sub-process bodies, at most one
outgoing flow per node, which keeps every abstracted engine path
unreachable) no `task.error` event is emitted anywhere in the run. -/
theorem errorSubprocess_handled_success
    (cfg : EngineConfig) (wf : Workflow) (fuel : Nat) (instanceId : Str)
    (initialContext : List (Str × Str)) (startEvent : Element)
    (st1 : EngineSt) (spName origType origMsg : Str)
    (hplain : plainWf wf = true)
    (hstart : wf.getStartEvent = some startEvent)
    (hrun : executeFromElement cfg wf fuel startEvent
        (initialState wf instanceId initialContext) =
      (st1, .exn (.handled spName origType origMsg))) :
    startExecution cfg wf fuel instanceId initialContext =
      (emit st1 (.workflowCompleted "success".data), .ok ()) ∧
    countTaskError (emit st1 (.workflowCompleted "success".data)).trace
      = 0 := by
  constructor
  · simp only [startExecution, hstart, hrun]
  · have hmem : startEvent ∈ wf.elements :=
      List.mem_of_find?_eq_some hstart
    have h := (plain_no_taskError fuel).1 cfg wf startEvent
      (initialState wf instanceId initialContext) hplain hmem
      (by rw [hrun]; rfl)
    rw [hrun] at h
    rw [countTaskError_emit _ (.workflowCompleted "success".data) rfl, h]
    with_unfolding_all rfl

/-- Witness for C6: in the concrete scenario the task `T` raises, the error
event sub-process `Handler` catches it, the run returns successfully with a
`workflow.completed success` event and the trace holds no `task.error`. -/
theorem errorSubprocess_handled_success_witness :
    startExecution cfgC6 wfC6 20 "inst".data [] =
      (emit stC6 (.workflowCompleted "success".data), .ok ()) ∧
    countTaskError
      (emit stC6 (.workflowCompleted "success".data)).trace = 0 :=
  errorSubprocess_handled_success cfgC6 wfC6 20 "inst".data [] elStart stC6
    "Handler".data "RuntimeError".data "boom".data (by decide) rfl
    (by
      have h2 : (executeFromElement cfgC6 wfC6 20 elStart
          (initialState wfC6 "inst".data [])).2 =
          Res.exn (.handled "Handler".data "RuntimeError".data
            "boom".data) := by decide
      rw [← h2]
      rfl)

end Engine
